import Mathlib

/-!
Verification development for the fink-utils helper library.

The development shallowly embeds the three source modules:
  * fink_utils/broker/distributionUtils.py  (record encoder and decoder,
    schema store, offset tracker, column regrouping)
  * fink_utils/broker/sparkUtils.py         (to_avro / from_avro wrappers,
    treated as the binary record codec)
  * fink_utils/sso/utils.py                 (ephemerides enricher)

Tables are modelled as explicit column lists plus row lists.  The external
Avro binary codec (to_avro / from_avro, delegated by the source to the
Spark JVM) is modelled as a real byte-level codec: zigzag varint integers
and length-prefixed strings, concatenated in schema order, which is the
Avro binary encoding restricted to the flat records this library produces.
-/

/-- Scalar cell values of an alert table: integers, strings, or binary
payloads (the encoded Kafka value column). -/
inductive Scalar where
  | sInt (i : Int)
  | sStr (s : String)
  | sBin (bs : List Nat)
deriving DecidableEq, Repr

/-- Spark SQL values: a scalar, or a struct column holding named scalar
fields.  The record batches handled by this library are flat tables, so a
struct never nests another struct. -/
inductive Pv where
  | sc (v : Scalar)
  | pStruct (fields : List (String × Scalar))
deriving DecidableEq, Repr

/-- Integer cell. -/
def Pv.pInt (i : Int) : Pv := .sc (.sInt i)

/-- String cell. -/
def Pv.pStr (s : String) : Pv := .sc (.sStr s)

/-- Binary cell. -/
def Pv.pBin (bs : List Nat) : Pv := .sc (.sBin bs)

instance : Inhabited Pv := ⟨Pv.pInt 0⟩

/-- Field types of the persisted Avro schema descriptor (flat records). -/
inductive AvroType where
  | aInt
  | aStr
  | aBin
deriving DecidableEq, Repr

/-- A schema descriptor: field names with their types, in record order. -/
abbrev Schema := List (String × AvroType)

/-- A Spark DataFrame: named columns and rows of values, positionally
aligned with the column list. -/
structure DF where
  cols : List String
  rows : List (List Pv)
deriving DecidableEq, Repr

/-- Base-128 varint encoding of a natural number (little endian groups,
high bit marks continuation), as used by the Avro binary format. -/
def encodeVarint (n : Nat) : List Nat :=
  if _h : n < 128 then [n]
  else (n % 128 + 128) :: encodeVarint (n / 128)
decreasing_by exact Nat.div_lt_self (by omega) (by omega)

/-- Varint decoding: returns the decoded number and the remaining bytes. -/
def decodeVarint : List Nat → Option (Nat × List Nat)
  | [] => none
  | b :: bs =>
    if b < 128 then some (b, bs)
    else
      match decodeVarint bs with
      | some (m, rest) => some (b - 128 + 128 * m, rest)
      | none => none

/-- Zigzag mapping of an integer to a natural number (Avro long encoding). -/
def zigzag (i : Int) : Nat :=
  if 0 ≤ i then (2 * i).toNat else (-2 * i - 1).toNat

/-- Inverse of the zigzag mapping. -/
def unzigzag (n : Nat) : Int :=
  if n % 2 = 0 then ((n / 2 : Nat) : Int) else -(((n + 1) / 2 : Nat) : Int)

/-- Avro binary encoding of a long: zigzag then varint. -/
def encodeLong (i : Int) : List Nat := encodeVarint (zigzag i)

/-- Avro binary decoding of a long. -/
def decodeLong (bs : List Nat) : Option (Int × List Nat) :=
  (decodeVarint bs).map (fun p => (unzigzag p.1, p.2))

/-- Avro binary encoding of one scalar: longs are zigzag varints, strings
and byte payloads are length-prefixed. -/
def encodeScalar : Scalar → List Nat
  | .sInt i => encodeLong i
  | .sStr s => encodeLong s.length ++ s.data.map Char.toNat
  | .sBin bs => encodeLong bs.length ++ bs

/-- Concatenated Avro encodings of the field values of a record: no field
names appear on the wire, the schema gives them back at decode time. -/
def encodeFields : List (String × Scalar) → List Nat
  | [] => []
  | f :: fs => encodeScalar f.2 ++ encodeFields fs

/-- Avro binary encoding of a value (to_avro on a struct column encodes
the record as the concatenation of its fields). -/
def encodePv : Pv → List Nat
  | .sc v => encodeScalar v
  | .pStruct fs => encodeFields fs

/-- Schema-directed decoding of one scalar value from a byte stream. -/
def decodePrim : AvroType → List Nat → Option (Scalar × List Nat)
  | .aInt, bs => (decodeLong bs).map (fun p => (Scalar.sInt p.1, p.2))
  | .aStr, bs =>
    match decodeLong bs with
    | some (n, rest) =>
      if 0 ≤ n ∧ n.toNat ≤ rest.length then
        some (.sStr (String.mk ((rest.take n.toNat).map Char.ofNat)), rest.drop n.toNat)
      else none
    | none => none
  | .aBin, bs =>
    match decodeLong bs with
    | some (n, rest) =>
      if 0 ≤ n ∧ n.toNat ≤ rest.length then
        some (.sBin (rest.take n.toNat), rest.drop n.toNat)
      else none
    | none => none

/-- Schema-directed decoding of a record: one field per schema entry. -/
def decodeRecord : Schema → List Nat → Option (List (String × Scalar) × List Nat)
  | [], bs => some ([], bs)
  | (n, t) :: sch, bs =>
    match decodePrim t bs with
    | some (v, rest) =>
      match decodeRecord sch rest with
      | some (fs, rest2) => some ((n, v) :: fs, rest2)
      | none => none
    | none => none

/-- A scalar conforms to a schema type. -/
def scTyped : Scalar → AvroType → Bool
  | .sInt _, .aInt => true
  | .sStr _, .aStr => true
  | .sBin _, .aBin => true
  | _, _ => false

/-- A value conforms to a schema type (structs and binaries never do, the
schema descriptor of this library describes flat scalar records). -/
def pvTyped : Pv → AvroType → Bool
  | .sc v, t => scTyped v t
  | .pStruct _, _ => false

/-- A list of values conforms positionally to a list of schema types. -/
def valsTyped (vs : List Pv) (ts : List AvroType) : Prop :=
  vs.length = ts.length ∧ (vs.zip ts).all (fun p => pvTyped p.1 p.2)

instance (vs : List Pv) (ts : List AvroType) : Decidable (valsTyped vs ts) := by
  unfold valsTyped; infer_instance

/-! ## Spark DataFrame operations

Column references in Spark SQL are resolved by name: resolution fails when
the name is absent, and also when it is ambiguous (several columns carry
the same name, e.g. after `toDF` renaming).  `findCol` models exactly
this resolution. -/

/-- Spark analysis errors raised during column resolution, plus the error
raised when a struct column appears where this flat model needs a scalar. -/
inductive SErr where
  | missingCol (n : String)
  | ambiguousCol (n : String)
  | nestedStruct
deriving DecidableEq, Repr

/-- Number of columns carrying a given name. -/
def countOcc (cols : List String) (n : String) : Nat :=
  (cols.filter (fun c => c = n)).length

/-- Position of the first column carrying a given name (list length when
no column does). -/
def idxOfName (cols : List String) (n : String) : Nat :=
  match cols with
  | [] => 0
  | c :: cs => if c = n then 0 else idxOfName cs n + 1

/-- Resolve a column name to its position: error when missing or ambiguous. -/
def findCol (cols : List String) (n : String) : Except SErr Nat :=
  if countOcc cols n = 1 then .ok (idxOfName cols n)
  else if countOcc cols n = 0 then .error (.missingCol n)
  else .error (.ambiguousCol n)

/-- Resolve a list of column names left to right. -/
def resolveCols (cols : List String) : List String → Except SErr (List Nat)
  | [] => .ok []
  | n :: ns => do
    let i ← findCol cols n
    let is ← resolveCols cols ns
    .ok (i :: is)

/-- Effectful map over a list, failing at the first error. -/
def mapExcept {α β ε : Type} : List α → (α → Except ε β) → Except ε (List β)
  | [], _ => .ok []
  | x :: xs, f => do
    let y ← f x
    let ys ← mapExcept xs f
    .ok (y :: ys)

/-- Map the error type of an exceptional result. -/
def exMapErr {α ε ε' : Type} (f : ε → ε') : Except ε α → Except ε' α
  | .ok a => .ok a
  | .error e => .error (f e)

instance {ε α : Type} [DecidableEq ε] [DecidableEq α] : DecidableEq (Except ε α) := fun x y =>
  match x, y with
  | .ok a, .ok b =>
    if h : a = b then .isTrue (h ▸ rfl)
    else .isFalse (fun hc => h (Except.ok.inj hc))
  | .error e, .error f =>
    if h : e = f then .isTrue (h ▸ rfl)
    else .isFalse (fun hc => h (Except.error.inj hc))
  | .ok _, .error _ => .isFalse (fun hc => Except.noConfusion hc)
  | .error _, .ok _ => .isFalse (fun hc => Except.noConfusion hc)

/-- The view of a cell as a scalar; a struct column cannot be packed again
in this flat model. -/
def asScalar : Pv → Except SErr Scalar
  | .sc v => .ok v
  | .pStruct _ => .error .nestedStruct

/-- Scalar cell values of a row at the given positions. -/
def scalarsAt (r : List Pv) : List Nat → Except SErr (List Scalar)
  | [] => .ok []
  | i :: is => do
    let v ← asScalar (r.getD i default)
    let vs ← scalarsAt r is
    .ok (v :: vs)

/-- Spark `df.select(list of column names)`. -/
def DF.select (df : DF) (names : List String) : Except SErr DF := do
  let idxs ← resolveCols df.cols names
  .ok ⟨names, df.rows.map (fun r => idxs.map (fun i => r.getD i default))⟩

/-- Spark `df.select(struct(*names).alias(al))`: pack the named columns
into a single struct column. -/
def DF.structPack (df : DF) (names : List String) (al : String) : Except SErr DF := do
  let idxs ← resolveCols df.cols names
  let rows ← mapExcept df.rows
    (fun r => (scalarsAt r idxs).map (fun vs => [Pv.pStruct (names.zip vs)]))
  .ok ⟨[al], rows⟩

/-- Spark `df.select(to_avro(structName).alias(valueName))`: binary-encode
the struct column (the Scala to_avro wrapped by sparkUtils.to_avro). -/
def DF.toAvroValue (df : DF) (structName valueName : String) : Except SErr DF := do
  let i ← findCol df.cols structName
  .ok ⟨[valueName], df.rows.map (fun r => [Pv.pBin (encodePv (r.getD i default))])⟩

/-- Spark `df.withColumn(name, lit v)`: replace the column when the name
exists, otherwise append it on the right. -/
def DF.withColumn (df : DF) (name : String) (v : Pv) : DF :=
  if name ∈ df.cols then
    ⟨df.cols, df.rows.map (fun r =>
      (List.range r.length).map (fun i =>
        if df.cols.getD i "" = name then v else r.getD i default))⟩
  else ⟨df.cols ++ [name], df.rows.map (fun r => r ++ [v])⟩

/-! ## distributionUtils.get_kafka_df (Record Encoder) -/

/-- The column list published to Kafka: the source removes the first
occurrence of "status" when present (`cols.remove` in Python). -/
def kafkaCols (cols : List String) : List String :=
  if "status" ∈ cols then cols.erase "status" else cols

/-- get_kafka_df from distributionUtils.py, for the production flags
saveschema=False and elasticc=False (the saveschema branch triggers a
one-shot streaming side effect and the elasticc branch loads a fixed
schema from a hardcoded path; both are outside this batch model).
Drops the "status" column, packs the remaining columns into one struct,
binary-encodes the struct as "value", and attaches the "key" column built
from the two version strings joined by an underscore. -/
def get_kafka_df (df : DF) (fink_broker_version fink_science_version : String) :
    Except SErr DF := do
  let df1 ← df.select (kafkaCols df.cols)
  let df_struct ← df1.structPack df1.cols "struct"
  let df_kafka ← df_struct.toAvroValue "struct" "value"
  .ok (df_kafka.withColumn "key"
    (Pv.pStr (fink_broker_version ++ "_" ++ fink_science_version)))

/-! ## distributionUtils.decode_kafka_df (Record Decoder) -/

/-- Decoder errors: analysis failure on the value column, a non-binary
cell, or a payload that does not decode against the schema. -/
inductive DErr where
  | analysis (e : SErr)
  | notBinary
  | malformedPayload
deriving DecidableEq, Repr

/-- Decode every row of the Kafka frame: the cell of the value column must
be binary and must decode to a record consuming the whole payload. -/
def decodeKafkaRows (schema : Schema) (vi : Nat) :
    List (List Pv) → Except DErr (List (List Pv))
  | [] => .ok []
  | r :: rs =>
    match r.getD vi default with
    | .sc (.sBin bs) =>
      match decodeRecord schema bs with
      | some (fs, []) => (decodeKafkaRows schema vi rs).map (fun ds => [Pv.pStruct fs] :: ds)
      | _ => .error .malformedPayload
    | _ => .error .notBinary

/-- decode_kafka_df from distributionUtils.py: select
from_avro("value", schema).alias("struct") against the persisted schema
descriptor.  The schema argument stands for the JSON descriptor loaded
from schema_path. -/
def decode_kafka_df (df_kafka : DF) (schema : Schema) : Except DErr DF := do
  let vi ← exMapErr DErr.analysis (findCol df_kafka.cols "value")
  let rows ← decodeKafkaRows schema vi df_kafka.rows
  .ok ⟨["struct"], rows⟩

/-! ## distributionUtils.save_avro_schema (Schema Store) -/

/-- The Avro type a cell is written with by the engine.  The schema store
of this library only ever materializes flat scalar tables; a struct cell
is out of its domain and mapped to the integer type. -/
def cellType : Pv → AvroType
  | .sc (.sInt _) => .aInt
  | .sc (.sStr _) => .aStr
  | .sc (.sBin _) => .aBin
  | .pStruct _ => .aInt

/-- The schema descriptor the engine derives when materializing a
DataFrame as an Avro file: column names with the types of the first row. -/
def schemaOf (df : DF) : Schema :=
  df.cols.zip ((df.rows.headD []).map cellType)

/-- Rendering of a schema type inside the JSON descriptor. -/
def typeName : AvroType → String
  | .aInt => "long"
  | .aStr => "string"
  | .aBin => "bytes"

/-- The serialized JSON schema descriptor written by json.dump. -/
def schemaJson (df : DF) : String :=
  String.intercalate ","
    ((schemaOf df).map (fun f => f.1 ++ ":" ++ typeName f.2))

/-- The filesystem: a map from paths to file contents. -/
abbrev FS : Type := String → Option String

/-- Point update of the filesystem. -/
def FS.update (fs : FS) (p : String) (v : Option String) : FS :=
  fun q => if q = p then v else fs q

/-- The temporary materialization path used by save_avro_schema
(flatten_hbase.avro under the working directory). -/
def flattenHbasePath : String := "flatten_hbase.avro"

/-- Result of a schema-store write: the new filesystem, and whether the
call reported an existing-file conflict (the printed diagnostic). -/
structure SaveResult where
  fs : FS
  printedConflict : Bool

/-- save_avro_schema from distributionUtils.py.  When no file exists at
schema_path: materialize the frame at the temporary Avro path (removing
any leftover), read the embedded schema descriptor back (modelled by
schemaJson, the descriptor the engine embeds for this frame), write it to
schema_path, and remove the temporary materialization.  When a file
already exists at schema_path: no filesystem mutation, print a conflict
diagnostic, raise nothing. -/
def save_avro_schema (df : DF) (schema_path : String) (fs : FS) : SaveResult :=
  if (fs schema_path).isSome then
    ⟨fs, true⟩
  else
    let fs1 := FS.update fs flattenHbasePath none
    ⟨FS.update fs1 schema_path (some (schemaJson df)), false⟩

/-! ## distributionUtils.get_distribution_offset (Offset Tracker)

The filesystem argument is the file at `offsetfile`: `none` when no file
exists at the path, `some content` otherwise.  Python exceptions
(ValueError from int()) are modelled by `none` results. -/

/-- Digits of a decimal literal folded to a natural number. -/
def digitsToNat (cs : List Char) : Nat :=
  cs.foldl (fun a c => 10 * a + (c.toNat - 48)) 0

/-- Parse a non-empty all-digit character list. -/
def pyIntDigits (cs : List Char) : Option Int :=
  if cs ≠ [] ∧ cs.all Char.isDigit then some (Int.ofNat (digitsToNat cs)) else none

/-- Strip leading and trailing whitespace characters. -/
def pyStrip (cs : List Char) : List Char :=
  ((cs.dropWhile Char.isWhitespace).reverse.dropWhile Char.isWhitespace).reverse

/-- The Python built-in int() on a string: strip surrounding whitespace,
allow one leading sign, then decimal digits; anything else raises
ValueError (modelled as none). -/
def pyInt (s : String) : Option Int :=
  match pyStrip s.data with
  | '+' :: rest => pyIntDigits rest
  | '-' :: rest => (pyIntDigits rest).map (fun i => -i)
  | cs => pyIntDigits cs

/-- Greedy left-to-right split of a character list on a separator, with a
fuel argument bounding the recursion (one unit per consumed character). -/
def splitListAux (sep : List Char) : Nat → List Char → List Char → List (List Char)
  | 0, cs, acc => [acc.reverse ++ cs]
  | _ + 1, [], acc => [acc.reverse]
  | fuel + 1, c :: cs, acc =>
    if sep.isPrefixOf (c :: cs) then
      acc.reverse :: splitListAux sep fuel ((c :: cs).drop sep.length) []
    else splitListAux sep fuel cs (c :: acc)

/-- The Python str.split(sep) for a non-empty separator. -/
def pySplit (s sep : String) : List String :=
  (splitListAux sep.data (s.data.length + 1) s.data []).map String.mk

/-- The last element of f.readlines() on a non-empty file: text after the
last newline when the file does not end with a newline, otherwise the
final newline-terminated line (terminator kept, as readlines keeps it). -/
def lastReadLine (content : String) : String :=
  let parts := pySplit content "\n"
  if parts.getLastD "" = "" ∧ parts.length ≥ 2 then
    parts.getD (parts.length - 2) "" ++ "\n"
  else parts.getLastD ""

/-- get_distribution_offset from distributionUtils.py. -/
def get_distribution_offset (file : Option String) (startingoffset_dist : String) :
    Option Int :=
  let fileexist : Bool := file.isSome
  let negatifoffset : Bool :=
    match file with
    | some c => decide (c.length ≤ 0)
    | none => false
  if !fileexist || negatifoffset || startingoffset_dist == "earliest" then
    some 100
  else if startingoffset_dist == "latest" then
    pyInt ((pySplit (lastReadLine (file.getD "")) ", ").getLastD "")
  else
    pyInt startingoffset_dist

/-! ## distributionUtils.group_df_into_struct (Column Regrouping) -/

/-- The Python str.startswith, on the character lists of the strings. -/
def strStartsWith (s pre : String) : Bool := pre.data.isPrefixOf s.data

/-- The Python slice s[n:], on the character list of the string. -/
def strDrop (s : String) (n : Nat) : String := String.mk (s.data.drop n)

/-- Spark `df.toDF(*names)`: positional renaming of the columns (the
source always passes exactly as many names as there are columns). -/
def DF.toDFRenamed (df : DF) (names : List String) : DF := ⟨names, df.rows⟩

/-- Spark `df.select(key, struct(*members).alias(al))`. -/
def selectKeyStruct (df : DF) (key : String) (members : List String) (al : String) :
    Except SErr DF := do
  let ki ← findCol df.cols key
  let idxs ← resolveCols df.cols members
  let rows ← mapExcept df.rows
    (fun r => (scalarsAt r idxs).map
      (fun vs => [r.getD ki default, Pv.pStruct (members.zip vs)]))
  .ok ⟨[key, al], rows⟩

/-- Spark `df1.join(df2, key)` (inner equi-join on a using column): the
output carries the key column first, then the remaining columns of the
left frame, then the remaining columns of the right frame; each left row
is paired with every right row whose key cell matches. -/
def joinUsing (df1 df2 : DF) (key : String) : Except SErr DF := do
  let i1 ← findCol df1.cols key
  let i2 ← findCol df2.cols key
  .ok ⟨key :: (df1.cols.eraseIdx i1 ++ df2.cols.eraseIdx i2),
    df1.rows.flatMap (fun r1 =>
      (df2.rows.filter (fun r2 => r2.getD i2 default == r1.getD i1 default)).map
        (fun r2 => r1.getD i1 default :: (r1.eraseIdx i1 ++ r2.eraseIdx i2)))⟩

/-- group_df_into_struct from distributionUtils.py: split the columns into
the colfamily-prefixed ones and the rest, strip the prefix, pack the
stripped columns into a struct named colfamily, and join back on key. -/
def group_df_into_struct (df : DF) (colfamily : String) (key : String) :
    Except SErr DF := do
  let pos := colfamily.length + 1
  let struct_cols := df.cols.filter (fun c => strStartsWith c (colfamily ++ "_"))
  let flat_cols := df.cols.filter (fun c => !(strStartsWith c (colfamily ++ "_")))
  let df1 ← df.select flat_cols
  let df2 ← df.select (key :: struct_cols)
  let stripped := struct_cols.map (fun c => strDrop c pos)
  let df2_renamed := DF.toDFRenamed df2 (key :: stripped)
  let df2_struct ← selectKeyStruct df2_renamed key stripped colfamily
  joinUsing df1 df2_struct key

/-! ## Helper views used by the theorem statements -/

/-- A cell is a scalar (not a struct column). -/
def isScalarCell : Pv → Bool
  | .sc _ => true
  | .pStruct _ => false

instance : Inhabited Scalar := ⟨Scalar.sInt 0⟩

/-- The scalar carried by a scalar cell. -/
def scOf : Pv → Scalar
  | .sc v => v
  | .pStruct _ => default

/-- The scalar content of a row restricted to the published (non-status)
columns, in published order. -/
def kafkaRowScalars (cols : List String) (r : List Pv) : List Scalar :=
  (kafkaCols cols).map (fun n => scOf (r.getD (idxOfName cols n) default))
/-! ## sso/utils.py: the ephemerides enricher

pandas DataFrames are modelled like the Spark frames: column labels plus
positional rows.  Cells are rationals (numeric columns), strings (object
identifiers) or NaN.  The network is abstracted by an oracle mapping each
object group and query plane to an outcome; np.log10 is abstracted by a
caller-supplied function on the rationals (floating point is outside the
model); the astropy SkyCoord conversion is modelled as the identity on
the numeric degree values. -/

/-- Cell values of a pandas DataFrame. -/
inductive Val where
  | num (q : ℚ)
  | str (s : String)
  | nan
deriving DecidableEq, Repr

instance : Inhabited Val := ⟨Val.nan⟩

/-- A pandas DataFrame: column labels and positional rows. -/
structure PDF where
  pcols : List String
  prows : List (List Val)
deriving DecidableEq, Repr

/-- Python exceptions that escape the enricher. -/
inductive MErr where
  | requestError
  | jsonError
  | keyError (c : String)
  | valueError
  | indexError
deriving DecidableEq, Repr

/-- Outcome of one HTTP query to the Miriade ephemerides service:
a read timeout, another request failure, a non-JSON body, a JSON body
without the data key, or a JSON body whose data key holds a table. -/
inductive MOutcome where
  | timeout
  | connError
  | badJson
  | noData
  | withData (d : PDF)
deriving DecidableEq, Repr

/-- query_miriade from sso/utils.py, as a function of the network outcome:
a ReadTimeout is caught and returns an empty frame; a missing data key
(KeyError) is caught and returns an empty frame; any other request
failure and a non-JSON body raise; a data table is returned as a frame. -/
def query_miriade : MOutcome → Except MErr PDF
  | .timeout => .ok ⟨[], []⟩
  | .connError => .error .requestError
  | .badJson => .error .jsonError
  | .noData => .ok ⟨[], []⟩
  | .withData d => .ok d

/-- pandas df.empty: true when either axis has length zero. -/
def PDF.isEmptyDf (d : PDF) : Bool := d.prows.isEmpty || d.pcols.isEmpty

/-- pandas column read df[c]: KeyError when the label is absent. -/
def getCol (d : PDF) (c : String) : Except MErr (List Val) :=
  if c ∈ d.pcols then
    .ok (d.prows.map (fun r => r.getD (idxOfName d.pcols c) default))
  else .error (.keyError c)

/-- pandas df.drop(columns=cs): KeyError when a label is absent, else
remove the listed columns (and the cells at their positions). -/
def dropColumns (d : PDF) (cs : List String) : Except MErr PDF :=
  if cs.all (fun c => decide (c ∈ d.pcols)) then
    .ok ⟨d.pcols.filter (fun c => !(decide (c ∈ cs))),
      d.prows.map (fun r =>
        ((d.pcols.zip r).filter (fun p => !(decide (p.1 ∈ cs)))).map (fun p => p.2))⟩
  else .error (.keyError "drop")

/-- pandas column write df[c] = vals: ValueError on a length mismatch;
an existing column is overwritten in place, a new one is appended. -/
def assignCol (d : PDF) (c : String) (vals : List Val) : Except MErr PDF :=
  if vals.length = d.prows.length then
    if c ∈ d.pcols then
      .ok ⟨d.pcols,
        (d.prows.zip vals).map (fun p => p.1.set (idxOfName d.pcols c) p.2)⟩
    else
      .ok ⟨d.pcols ++ [c], (d.prows.zip vals).map (fun p => p.1 ++ [p.2])⟩
  else .error .valueError

/-- pandas df.reset_index() on a default range index: inserts an "index"
column in front holding 0, 1, 2, ... -/
def resetIndex (d : PDF) : PDF :=
  ⟨"index" :: d.pcols, d.prows.enum.map (fun p => Val.num p.1 :: p.2)⟩

/-- pandas pd.concat(axis=1) of two frames freshly reset to range
indexes: columns side by side, the shorter side padded with NaN rows. -/
def concatCols (a b : PDF) : PDF :=
  ⟨a.pcols ++ b.pcols,
    (List.range (max a.prows.length b.prows.length)).map (fun i =>
      a.prows.getD i (List.replicate a.pcols.length Val.nan)
        ++ b.prows.getD i (List.replicate b.pcols.length Val.nan))⟩

/-- Positions of the first occurrence of each column label. -/
def firstOccIdxs (cols : List String) : List Nat :=
  (List.range cols.length).filter (fun i => !(decide (cols.getD i "" ∈ cols.take i)))

/-- pandas info.loc[:, not info.columns.duplicated()]: keep only the
first occurrence of each column label. -/
def dedupCols (d : PDF) : PDF :=
  ⟨(firstOccIdxs d.pcols).map (fun i => d.pcols.getD i ""),
    d.prows.map (fun r => (firstOccIdxs d.pcols).map (fun i => r.getD i default))⟩

/-- Scalar multiplication on cells; NaN (and the impossible string case)
propagates as NaN, as in numpy. -/
def vScale (k : ℚ) : Val → Val
  | .num q => .num (q * k)
  | _ => .nan

/-- Cell multiplication. -/
def vMul : Val → Val → Val
  | .num a, .num b => .num (a * b)
  | _, _ => .nan

/-- Cell subtraction. -/
def vSub : Val → Val → Val
  | .num a, .num b => .num (a - b)
  | _, _ => .nan

/-- np.log10 on a cell, for an abstract log10 on the rationals. -/
def log10N (lg : ℚ → ℚ) : Val → Val
  | .num q => .num (lg q)
  | _ => .nan

/-- The reduced magnitude of one row:
magpsf - 5 * log10(Dobs * Dhelio). -/
def redMag1 (lg : ℚ → ℚ) (m dobs dhel : Val) : Val :=
  vSub m (vScale 5 (log10N lg (vMul dobs dhel)))

/-- The reduced magnitude column, elementwise over three columns. -/
def redMagVals (lg : ℚ → ℚ) (ms ds hs : List Val) : List Val :=
  (ms.zip (ds.zip hs)).map (fun p => redMag1 lg p.1 p.2.1 p.2.2)

/-- Processing of one object group inside the get_miriade_data loop.
The two MOutcome arguments are the network outcomes of the equatorial
and (when withecl) the ecliptic query for this group.  On an empty
equatorial result the group rows pass through untouched; otherwise the
returned RA/DEC are reprojected (RA rescaled by 15), the optional
ecliptic columns are assigned, the ephemerides are merged positionally
with the group rows, duplicated labels are dropped, and the reduced
magnitude column is appended. -/
def processGroup (lg : ℚ → ℚ) (oEq oEc : MOutcome) (withecl : Bool)
    (pdf_sub : PDF) : Except MErr PDF := do
  let eph ← query_miriade oEq
  if eph.isEmptyDf then
    .ok pdf_sub
  else do
    let ras ← getCol eph "RA"
    let decs ← getCol eph "DEC"
    let eph1 ← dropColumns eph ["RA", "DEC"]
    let eph2 ← assignCol eph1 "RA" (ras.map (vScale 15))
    let eph3 ← assignCol eph2 "Dec" decs
    let eph4 ←
      if withecl then do
        let ephEc ← query_miriade oEc
        let lons ← getCol ephEc "Longitude"
        let lats ← getCol ephEc "Latitude"
        let e1 ← assignCol eph3 "Longitude" lons
        assignCol e1 "Latitude" lats
      else .ok eph3
    let info := dedupCols (concatCols (resetIndex eph4) (resetIndex pdf_sub))
    let ms ← getCol info "i:magpsf"
    let ds ← getCol info "Dobs"
    let hs ← getCol info "Dhelio"
    assignCol info "i:magpsf_red" (redMagVals lg ms ds hs)

/-- Total order used to model the sorting performed by np.unique on the
object identifiers (numbers before strings before NaN). -/
def valLeB : Val → Val → Bool
  | .num a, .num b => decide (a ≤ b)
  | .num _, _ => true
  | .str _, .num _ => false
  | .str a, .str b => !(decide (b < a))
  | .str _, .nan => true
  | .nan, .nan => true
  | .nan, _ => false

/-- Insertion into a sorted list. -/
def insertValLe (x : Val) : List Val → List Val
  | [] => [x]
  | y :: ys => if valLeB x y then x :: y :: ys else y :: insertValLe x ys

/-- Insertion sort of cell values. -/
def sortVals : List Val → List Val
  | [] => []
  | x :: xs => insertValLe x (sortVals xs)

/-- Remove duplicates keeping first occurrences, skipping values already
seen. -/
def dedupKeepFirst {α : Type} [DecidableEq α] (seen : List α) : List α → List α
  | [] => []
  | x :: xs =>
    if x ∈ seen then dedupKeepFirst seen xs
    else x :: dedupKeepFirst (x :: seen) xs

/-- np.unique: the sorted list of distinct values. -/
def uniqueSorted (vs : List Val) : List Val := dedupKeepFirst [] (sortVals vs)

/-- The rows of one object group: pdf[pdf[i:ssnamenr] == g]. -/
def subDf (pdf : PDF) (g : Val) : PDF :=
  ⟨pdf.pcols, pdf.prows.filter (fun r =>
    r.getD (idxOfName pdf.pcols "i:ssnamenr") default == g)⟩

/-- Processing of one group, as a function of the oracle. -/
def processGroupO (lg : ℚ → ℚ) (oracle : Val → Bool → MOutcome) (pdf : PDF)
    (withecl : Bool) (g : Val) : Except MErr PDF :=
  processGroup lg (oracle g true) (oracle g false) withecl (subDf pdf g)

/-- The loop of get_miriade_data: one info frame per object group, the
first raised exception aborting the whole loop. -/
def processGroups (lg : ℚ → ℚ) (oracle : Val → Bool → MOutcome) (pdf : PDF)
    (withecl : Bool) : List Val → Except MErr (List PDF)
  | [] => .ok []
  | g :: gs => do
    let info ← processGroupO lg oracle pdf withecl g
    let rest ← processGroups lg oracle pdf withecl gs
    .ok (info :: rest)

/-- pd.concat(infos) with the default outer join on columns: the union of
the column labels in order of first appearance, rows padded with NaN on
the columns a source frame lacks. -/
def concatRows (dfs : List PDF) : PDF :=
  ⟨dedupKeepFirst [] (dfs.flatMap (fun d => d.pcols)),
    dfs.flatMap (fun d => d.prows.map (fun r =>
      (dedupKeepFirst [] (dfs.flatMap (fun d2 => d2.pcols))).map (fun c =>
        if c ∈ d.pcols then r.getD (idxOfName d.pcols c) default else Val.nan)))⟩

/-- get_miriade_data from sso/utils.py: group the input by the object
identifier column (np.unique sorts the distinct identifiers), process
each group, and concatenate the per-group results (an empty input raises
IndexError at infos[0]). -/
def get_miriade_data (lg : ℚ → ℚ) (oracle : Val → Bool → MOutcome) (pdf : PDF)
    (withecl : Bool) : Except MErr PDF := do
  let sv ← getCol pdf "i:ssnamenr"
  let infos ← processGroups lg oracle pdf withecl (uniqueSorted sv)
  match infos with
  | [] => .error .indexError
  | [x] => .ok x
  | xs => .ok (concatRows xs)

/-- The column labels contributed by a successful ephemerides response d
(beyond the input columns): the index column of the reset merge, the
response columns without RA and DEC, the reprojected RA and Dec, the
ecliptic columns when requested, and the reduced magnitude. -/
def ephContribCols (d : PDF) (withecl : Bool) : List String :=
  "index" :: ((d.pcols.filter (fun c => !(decide (c ∈ (["RA", "DEC"] : List String)))))
    ++ ["RA", "Dec"]
    ++ (if withecl then ["Longitude", "Latitude"] else [])
    ++ ["i:magpsf_red"])

/-- A primary-query outcome that the enricher treats as a recoverable
failure (the group passes through). -/
def primaryEmptyFail : MOutcome → Prop := fun o => o = .timeout ∨ o = .noData

instance (o : MOutcome) : Decidable (primaryEmptyFail o) := by
  unfold primaryEmptyFail; infer_instance

theorem decodeVarint_encodeVarint (n : Nat) :
    ∀ rest, decodeVarint (encodeVarint n ++ rest) = some (n, rest) := by
  induction n using Nat.strong_induction_on with
  | _ n ih =>
    intro rest
    rw [encodeVarint]
    split
    · next h => simp [decodeVarint, h]
    · next h =>
      have hb : ¬ (n % 128 + 128 < 128) := by omega
      simp only [List.cons_append, decodeVarint, if_neg hb]
      rw [List.append_eq, ih (n / 128) (Nat.div_lt_self (by omega) (by omega)) rest]
      simp
      omega

theorem unzigzag_zigzag (i : Int) : unzigzag (zigzag i) = i := by
  simp only [zigzag, unzigzag]
  split_ifs <;> omega

theorem decodeLong_encodeLong (i : Int) (rest : List Nat) :
    decodeLong (encodeLong i ++ rest) = some (i, rest) := by
  simp [decodeLong, encodeLong, decodeVarint_encodeVarint, unzigzag_zigzag]

theorem decodePrim_encodeScalar (v : Scalar) (t : AvroType) (h : scTyped v t)
    (rest : List Nat) : decodePrim t (encodeScalar v ++ rest) = some (v, rest) := by
  cases v with
  | sInt i =>
    cases t with
    | aInt => simp [decodePrim, encodeScalar, decodeLong_encodeLong]
    | aStr => simp [scTyped] at h
    | aBin => simp [scTyped] at h
  | sStr s =>
    cases t with
    | aInt => simp [scTyped] at h
    | aBin => simp [scTyped] at h
    | aStr =>
      simp only [decodePrim, encodeScalar, List.append_assoc, decodeLong_encodeLong]
      have htn : ((s.length : Int)).toNat = s.length := rfl
      have hlen : (s.data.map Char.toNat).length = s.length := by
        rw [List.length_map]; rfl
      have hle : ((s.length : Int)).toNat ≤ (s.data.map Char.toNat ++ rest).length := by
        rw [htn, List.length_append, List.length_map]
        exact Nat.le_add_right _ _
      rw [if_pos ⟨Int.natCast_nonneg s.length, hle⟩]
      have htake : (s.data.map Char.toNat ++ rest).take ((s.length : Int)).toNat
          = s.data.map Char.toNat := by
        rw [htn, ← hlen, List.take_left]
      have hdrop : (s.data.map Char.toNat ++ rest).drop ((s.length : Int)).toNat = rest := by
        rw [htn, ← hlen, List.drop_left]
      rw [htake, hdrop]
      have hchars : (s.data.map Char.toNat).map Char.ofNat = s.data := by
        rw [List.map_map]
        have hco : (Char.ofNat ∘ Char.toNat) = id := by
          funext c; exact Char.ofNat_toNat c
        rw [hco, List.map_id]
      rw [hchars]
  | sBin bs =>
    cases t with
    | aInt => simp [scTyped] at h
    | aStr => simp [scTyped] at h
    | aBin =>
      simp only [decodePrim, encodeScalar, List.append_assoc, decodeLong_encodeLong]
      have htn : ((bs.length : Int)).toNat = bs.length := rfl
      have hle : ((bs.length : Int)).toNat ≤ (bs ++ rest).length := by
        rw [htn, List.length_append]
        exact Nat.le_add_right _ _
      rw [if_pos ⟨Int.natCast_nonneg bs.length, hle⟩, htn, List.take_left, List.drop_left]

theorem decodeRecord_encodeFields :
    ∀ (cols : List String) (ts : List AvroType) (vs : List Scalar) (rest : List Nat),
      cols.length = vs.length → vs.length = ts.length →
      ((vs.zip ts).all (fun p => scTyped p.1 p.2)) →
      decodeRecord (cols.zip ts) (encodeFields (cols.zip vs) ++ rest)
        = some (cols.zip vs, rest) := by
  intro cols
  induction cols with
  | nil =>
    intro ts vs rest _ _ _
    simp [decodeRecord, encodeFields]
  | cons c cs ih =>
    intro ts vs rest hlen1 hlen2 htyped
    cases vs with
    | nil => simp at hlen1
    | cons v vrest =>
      cases ts with
      | nil => simp at hlen2
      | cons t trest =>
        simp only [List.zip_cons_cons, List.all_cons, Bool.and_eq_true] at htyped
        have hih := ih trest vrest rest (by simpa using hlen1) (by simpa using hlen2) htyped.2
        simp only [List.zip_cons_cons, encodeFields, decodeRecord, List.append_assoc]
        rw [decodePrim_encodeScalar v t htyped.1]
        simp only [List.zip] at hih ⊢
        rw [hih]

/-! ## Column resolution lemmas -/

theorem countOcc_cons (c : String) (cs : List String) (n : String) :
    countOcc (c :: cs) n = (if c = n then 1 else 0) + countOcc cs n := by
  by_cases h : c = n <;> simp [countOcc, List.filter_cons, h, Nat.add_comm]

theorem countOcc_eq_zero (cs : List String) (n : String) (h : n ∉ cs) :
    countOcc cs n = 0 := by
  induction cs with
  | nil => rfl
  | cons c cs ih =>
    rw [countOcc_cons]
    have hcn : ¬ c = n := fun hc => h (hc ▸ List.mem_cons_self c cs)
    rw [if_neg hcn, ih (fun hm => h (List.mem_cons_of_mem c hm))]

theorem countOcc_eq_one_of_nodup (cs : List String) (n : String)
    (hnd : cs.Nodup) (hm : n ∈ cs) : countOcc cs n = 1 := by
  induction cs with
  | nil => cases hm
  | cons c cs ih =>
    rw [countOcc_cons]
    rcases List.mem_cons.mp hm with heq | hmem
    · rw [if_pos heq.symm, countOcc_eq_zero cs n (heq ▸ (List.nodup_cons.mp hnd).1)]
    · have hcn : ¬ c = n := by
        intro hc
        exact (List.nodup_cons.mp hnd).1 (hc ▸ hmem)
      rw [if_neg hcn, ih (List.nodup_cons.mp hnd).2 hmem]

theorem findCol_nodup (cs : List String) (n : String) (hnd : cs.Nodup)
    (hm : n ∈ cs) : findCol cs n = .ok (idxOfName cs n) := by
  simp [findCol, countOcc_eq_one_of_nodup cs n hnd hm]

theorem resolveCols_nodup (cs : List String) (hnd : cs.Nodup) :
    ∀ names, (∀ n ∈ names, n ∈ cs) →
      resolveCols cs names = .ok (names.map (idxOfName cs)) := by
  intro names
  induction names with
  | nil => intro _; rfl
  | cons n ns ih =>
    intro hmem
    have h1 := findCol_nodup cs n hnd (hmem n (List.mem_cons_self n ns))
    have h2 := ih (fun m hm => hmem m (List.mem_cons_of_mem n hm))
    simp [resolveCols, h1, h2, Bind.bind, Except.bind]

theorem getD_map_idxOfName {β : Type} (names : List String) (g : String → β)
    (n : String) (d : β) (hm : n ∈ names) :
    (names.map g).getD (idxOfName names n) d = g n := by
  induction names with
  | nil => cases hm
  | cons m ms ih =>
    by_cases h : m = n
    · simp [idxOfName, h]
    · have hmem : n ∈ ms := by
        rcases List.mem_cons.mp hm with heq | hms
        · exact absurd heq.symm h
        · exact hms
      simp only [idxOfName, if_neg h, List.map_cons, List.getD_cons_succ]
      exact ih hmem

theorem isScalarCell_getD (r : List Pv) (h : r.all isScalarCell = true) (i : Nat) :
    isScalarCell (r.getD i default) = true := by
  by_cases hi : i < r.length
  · rw [List.getD_eq_getElem r default hi]
    exact List.all_eq_true.mp h _ (List.getElem_mem hi)
  · rw [List.getD_eq_default r default (by omega)]
    rfl

theorem scalarsAt_flat (r : List Pv) (h : r.all isScalarCell = true) :
    ∀ idxs, scalarsAt r idxs = .ok (idxs.map (fun i => scOf (r.getD i default))) := by
  intro idxs
  induction idxs with
  | nil => rfl
  | cons i is ih =>
    have hs := isScalarCell_getD r h i
    cases hv : r.getD i default with
    | sc v =>
      have h1 : asScalar (r.getD i default) = .ok v := by rw [hv]; rfl
      have h2 : scOf (r.getD i default) = v := by rw [hv]; rfl
      simp only [scalarsAt, Bind.bind, Except.bind, h1, ih, List.map_cons, h2]
    | pStruct fs => rw [hv] at hs; simp [isScalarCell] at hs

theorem mapExcept_ok {α β ε : Type} (xs : List α) (f : α → Except ε β) (g : α → β)
    (h : ∀ x ∈ xs, f x = .ok (g x)) : mapExcept xs f = .ok (xs.map g) := by
  induction xs with
  | nil => rfl
  | cons x xs ih =>
    have hx := h x (List.mem_cons_self x xs)
    have hr := ih (fun y hy => h y (List.mem_cons_of_mem x hy))
    simp [mapExcept, hx, hr, Bind.bind, Except.bind]

theorem select_nodup (df : DF) (names : List String) (hnd : df.cols.Nodup)
    (hmem : ∀ n ∈ names, n ∈ df.cols) :
    df.select names = .ok ⟨names, df.rows.map (fun r =>
      names.map (fun n => r.getD (idxOfName df.cols n) default))⟩ := by
  simp [DF.select, resolveCols_nodup df.cols hnd names hmem,
    Bind.bind, Except.bind, List.map_map, Function.comp]

theorem except_bind_ok {α β ε : Type} (x : α) (f : α → Except ε β) :
    (Except.ok x : Except ε α) >>= f = f x := rfl

theorem structPack_explicit (cols : List String) (rows : List (List Pv)) (al : String)
    (hnd : cols.Nodup) (hflat : ∀ r ∈ rows, r.all isScalarCell = true) :
    DF.structPack ⟨cols, rows⟩ cols al = .ok ⟨[al], rows.map (fun r =>
      [Pv.pStruct (cols.zip (cols.map
        (fun n => scOf (r.getD (idxOfName cols n) default))))])⟩ := by
  have hres := resolveCols_nodup cols hnd cols (fun n hn => hn)
  have hmap := mapExcept_ok rows
    (fun r => (scalarsAt r (cols.map (idxOfName cols))).map
      (fun vs => [Pv.pStruct (cols.zip vs)]))
    (fun r => [Pv.pStruct (cols.zip (cols.map
      (fun n => scOf (r.getD (idxOfName cols n) default))))])
    (fun r hr => by
      simp [scalarsAt_flat r (hflat r hr), Except.map, List.map_map]
      rfl)
  simp [DF.structPack, hres, hmap, Bind.bind, Except.bind]

/-! ## kafkaCols facts -/

theorem kafkaCols_nodup (cols : List String) (h : cols.Nodup) :
    (kafkaCols cols).Nodup := by
  unfold kafkaCols
  split
  · exact h.erase "status"
  · exact h

theorem kafkaCols_sub (cols : List String) : ∀ n ∈ kafkaCols cols, n ∈ cols := by
  unfold kafkaCols
  split
  · exact fun n hn => List.mem_of_mem_erase hn
  · exact fun n hn => hn

theorem status_not_mem_kafkaCols (cols : List String) (h : cols.Nodup) :
    "status" ∉ kafkaCols cols := by
  unfold kafkaCols
  split
  · exact h.not_mem_erase
  · next hs => exact hs

/-- A string of length zero is the empty string. -/
theorem str_eq_empty_of_len (s : String) (h : s.length = 0) : s = "" := by
  cases s with
  | mk dt =>
    cases dt with
    | nil => rfl
    | cons c cs => simp [String.length] at h

/-- Explicit description of the encoder output on a well-formed record
batch (distinct columns, flat scalar cells). -/
theorem get_kafka_df_explicit (df : DF) (b s : String)
    (hnd : df.cols.Nodup) (hflat : ∀ r ∈ df.rows, r.all isScalarCell = true) :
    get_kafka_df df b s = .ok ⟨["value", "key"],
        df.rows.map (fun r =>
          [Pv.pBin (encodeFields ((kafkaCols df.cols).zip (kafkaRowScalars df.cols r))),
           Pv.pStr (b ++ "_" ++ s)])⟩ := by
  have hsub := kafkaCols_sub df.cols
  have hnd1 := kafkaCols_nodup df.cols hnd
  have hsel := select_nodup df (kafkaCols df.cols) hnd hsub
  have hflat1 : ∀ r1 ∈ df.rows.map (fun r =>
      (kafkaCols df.cols).map (fun n => r.getD (idxOfName df.cols n) default)),
      r1.all isScalarCell = true := by
    intro r1 hr1
    rcases List.mem_map.mp hr1 with ⟨r, hr, rfl⟩
    rw [List.all_eq_true]
    intro v hv
    rcases List.mem_map.mp hv with ⟨n, _, rfl⟩
    exact isScalarCell_getD r (hflat r hr) _
  have hpack := structPack_explicit (kafkaCols df.cols)
    (df.rows.map (fun r =>
      (kafkaCols df.cols).map (fun n => r.getD (idxOfName df.cols n) default)))
    "struct" hnd1 hflat1
  have hfind : findCol ["struct"] "struct" = .ok 0 := rfl
  simp only [get_kafka_df, hsel, except_bind_ok, hpack, DF.toAvroValue, hfind,
    DF.withColumn]
  dsimp only
  rw [if_neg (by simp)]
  simp only [List.map_map, Except.ok.injEq, DF.mk.injEq, List.cons_append,
    List.nil_append, true_and]
  apply List.map_congr_left
  intro r hr
  simp only [Function.comp_apply, List.getD_cons_zero, encodePv]
  have hfields : ((kafkaCols df.cols).map (fun n =>
      scOf ((((kafkaCols df.cols).map
        (fun m => r.getD (idxOfName df.cols m) default)).getD
          (idxOfName (kafkaCols df.cols) n) default))))
      = kafkaRowScalars df.cols r := by
    unfold kafkaRowScalars
    apply List.map_congr_left
    intro n hn
    rw [getD_map_idxOfName (kafkaCols df.cols)
      (fun m => r.getD (idxOfName df.cols m) default) n default hn]
  rw [hfields]
  rfl

/-- C7: get_kafka_df removes the "status" column when present (absence is
not an error), packs all remaining columns into a single struct whose
binary encoding becomes the "value" column, and sets the "key" column of
every output row to the two caller-supplied version strings joined by a
literal underscore.  The hypotheses state that the input is a well-formed
record batch: distinct column names and flat scalar cells. -/
theorem c7_get_kafka_df_contract (df : DF) (b s : String)
    (hnd : df.cols.Nodup) (hflat : ∀ r ∈ df.rows, r.all isScalarCell = true) :
    get_kafka_df df b s = .ok ⟨["value", "key"],
        df.rows.map (fun r =>
          [Pv.pBin (encodeFields ((kafkaCols df.cols).zip (kafkaRowScalars df.cols r))),
           Pv.pStr (b ++ "_" ++ s)])⟩
      ∧ "status" ∉ kafkaCols df.cols :=
  ⟨get_kafka_df_explicit df b s hnd hflat, status_not_mem_kafkaCols df.cols hnd⟩

/-- C7 witness: the contract evaluated on a concrete two-column batch that
carries a "status" column. -/
theorem c7_witness :
    get_kafka_df ⟨["objectId", "status"], [[Pv.pStr "ZTF18a", Pv.pStr "ok"]]⟩ "2.2" "2.0.0"
      = .ok ⟨["value", "key"],
          [[Pv.pBin (encodeFields ((kafkaCols ["objectId", "status"]).zip
              (kafkaRowScalars ["objectId", "status"] [Pv.pStr "ZTF18a", Pv.pStr "ok"]))),
            Pv.pStr "2.2_2.0.0"]]⟩ := by
  have h := c7_get_kafka_df_contract
    ⟨["objectId", "status"], [[Pv.pStr "ZTF18a", Pv.pStr "ok"]]⟩ "2.2" "2.0.0"
    (by decide) (by decide)
  exact h.1

/-- C8: calling the schema store write twice against the same path yields
the same persisted descriptor as calling it once, the second call performs
no filesystem mutation, raises nothing (it is a total function), and
reports the conflict through the printed diagnostic flag. -/
theorem c8_save_avro_schema_idempotent (df : DF) (schema_path : String) (fs : FS) :
    (save_avro_schema df schema_path (save_avro_schema df schema_path fs).fs).fs
      = (save_avro_schema df schema_path fs).fs
  ∧ (save_avro_schema df schema_path
      (save_avro_schema df schema_path fs).fs).printedConflict = true
  ∧ (save_avro_schema df schema_path (save_avro_schema df schema_path fs).fs).fs schema_path
      = (save_avro_schema df schema_path fs).fs schema_path := by
  unfold save_avro_schema
  by_cases h : (fs schema_path).isSome
  · simp [h]
  · simp [h, FS.update]

/-- C2: the offset tracker returns 100 when the file is missing, empty, or
the policy is "earliest"; under "latest" it parses the trailing ", "
separated token of the last line (failing on a malformed line); any other
policy is itself parsed as an integer (failing when non-numeric). -/
theorem c2_get_distribution_offset_contract :
    (∀ policy, get_distribution_offset none policy = some 100) ∧
    (∀ policy, get_distribution_offset (some "") policy = some 100) ∧
    (∀ file, get_distribution_offset file "earliest" = some 100) ∧
    (∀ content, content ≠ "" →
      get_distribution_offset (some content) "latest"
        = pyInt ((pySplit (lastReadLine content) ", ").getLastD "")) ∧
    (get_distribution_offset (some "distributed till, 123456789") "latest"
      = some 123456789) ∧
    (get_distribution_offset (some "x, 12a34") "latest" = none) ∧
    (∀ content policy, content ≠ "" → policy ≠ "earliest" → policy ≠ "latest" →
      get_distribution_offset (some content) policy = pyInt policy) ∧
    (get_distribution_offset (some "log") "1700000000000" = some 1700000000000) ∧
    (get_distribution_offset (some "log") "not-a-number" = none) := by
  refine ⟨fun policy => rfl, fun policy => rfl, ?_, ?_, by decide, by decide, ?_, by decide, by decide⟩
  · intro file
    cases file with
    | none => rfl
    | some c => simp [get_distribution_offset, Bool.or_true]
  · intro content hne
    have hlen : ¬ (content.length ≤ 0) := by
      intro hle
      exact hne (str_eq_empty_of_len content (Nat.le_zero.mp hle))
    simp [get_distribution_offset, decide_eq_false hlen]
    intro h0
    exact absurd (Nat.le_of_eq h0) hlen
  · intro content policy hc hp1 hp2
    have hlen : ¬ (content.length ≤ 0) := by
      intro hle
      exact hc (str_eq_empty_of_len content (Nat.le_zero.mp hle))
    have h1 : (policy == "earliest") = false := beq_eq_false_iff_ne.mpr hp1
    have h2 : (policy == "latest") = false := beq_eq_false_iff_ne.mpr hp2
    simp [get_distribution_offset, decide_eq_false hlen, h1, h2]
    intro h0
    exact absurd (Nat.le_of_eq h0) hlen

/-- C2 witness: the contract evaluated on the concrete offset log of the
source doctest. -/
theorem c2_witness :
    "distributed till, 1700000000000" ≠ "" ∧
    get_distribution_offset (some "distributed till, 1700000000000") "latest"
      = pyInt ((pySplit (lastReadLine "distributed till, 1700000000000") ", ").getLastD "") := by
  refine ⟨by decide, ?_⟩
  exact c2_get_distribution_offset_contract.2.2.2.1
    "distributed till, 1700000000000" (by decide)

/-- Decoding rows produced by the encoder succeeds and recovers the struct
fields, for well-typed rows. -/
theorem decodeKafkaRows_encoded (ts : List AvroType) (names : List String) (keyv : Pv) :
    ∀ (svs : List (List Scalar)),
      (∀ sv ∈ svs, names.length = sv.length ∧ sv.length = ts.length ∧
        ((sv.zip ts).all (fun p => scTyped p.1 p.2))) →
      decodeKafkaRows (names.zip ts) 0
          (svs.map (fun sv => [Pv.pBin (encodeFields (names.zip sv)), keyv]))
        = .ok (svs.map (fun sv => [Pv.pStruct (names.zip sv)])) := by
  intro svs
  induction svs with
  | nil => intro _; rfl
  | cons sv rest ih =>
    intro h
    obtain ⟨h1, h2, h3⟩ := h sv (List.mem_cons_self sv rest)
    have hdec := decodeRecord_encodeFields names ts sv [] h1 h2 h3
    rw [List.append_nil] at hdec
    have hrest := ih (fun x hx => h x (List.mem_cons_of_mem sv hx))
    simp only [Pv.pBin] at hrest
    simp only [List.map_cons, decodeKafkaRows, Pv.pBin, List.getD_cons_zero, hdec,
      hrest, Except.map]

/-- C1: encoding a record batch with get_kafka_df and decoding the binary
payload column with decode_kafka_df against the persisted schema
descriptor of the published columns yields the batch content unchanged
except for the dropped "status" column: the decoded struct column carries
exactly the non-status columns with their original values.  Hypotheses:
well-formed record batch (distinct columns, flat scalar cells) and a
schema descriptor matching the published columns. -/
theorem c1_encode_decode_roundtrip (df : DF) (b s : String) (ts : List AvroType)
    (hnd : df.cols.Nodup)
    (hflat : ∀ r ∈ df.rows, r.all isScalarCell = true)
    (hts : (kafkaCols df.cols).length = ts.length)
    (htyped : ∀ r ∈ df.rows,
      ((kafkaRowScalars df.cols r).zip ts).all (fun p => scTyped p.1 p.2)) :
    (exMapErr DErr.analysis (get_kafka_df df b s) >>= fun kdf =>
        decode_kafka_df kdf ((kafkaCols df.cols).zip ts))
      = .ok ⟨["struct"], df.rows.map (fun r =>
          [Pv.pStruct ((kafkaCols df.cols).zip (kafkaRowScalars df.cols r))])⟩ := by
  have henc := get_kafka_df_explicit df b s hnd hflat
  have hfind : findCol ["value", "key"] "value" = .ok 0 := rfl
  have hdec := decodeKafkaRows_encoded ts (kafkaCols df.cols)
    (Pv.pStr (b ++ "_" ++ s)) (df.rows.map (kafkaRowScalars df.cols))
    (fun sv hsv => by
      rcases List.mem_map.mp hsv with ⟨r, hr, rfl⟩
      refine ⟨?_, ?_, htyped r hr⟩
      · simp [kafkaRowScalars]
      · simp [kafkaRowScalars]
        exact hts)
  rw [List.map_map] at hdec
  simp only [henc, exMapErr, except_bind_ok, decode_kafka_df, hfind]
  have hcomp : (df.rows.map (fun r =>
      [Pv.pBin (encodeFields ((kafkaCols df.cols).zip (kafkaRowScalars df.cols r))),
       Pv.pStr (b ++ "_" ++ s)]))
      = df.rows.map ((fun sv =>
          [Pv.pBin (encodeFields ((kafkaCols df.cols).zip sv)),
           Pv.pStr (b ++ "_" ++ s)]) ∘ kafkaRowScalars df.cols) := rfl
  rw [hcomp, hdec]
  simp only [except_bind_ok, List.map_map]
  rfl

/-- C1 witness: the round trip evaluated on a concrete batch carrying a
"status" column, an integer column and a string column. -/
theorem c1_witness :
    (exMapErr DErr.analysis
        (get_kafka_df ⟨["candid", "status", "objectId"],
          [[Pv.pInt 697251923115015002, Pv.pStr "ok", Pv.pStr "ZTF18aceatkx"]]⟩ "2.2" "2.0.0")
      >>= fun kdf =>
        decode_kafka_df kdf
          ((kafkaCols ["candid", "status", "objectId"]).zip [AvroType.aInt, AvroType.aStr]))
      = .ok ⟨["struct"],
          [[Pv.pStruct ((kafkaCols ["candid", "status", "objectId"]).zip
            (kafkaRowScalars ["candid", "status", "objectId"]
              [Pv.pInt 697251923115015002, Pv.pStr "ok", Pv.pStr "ZTF18aceatkx"]))]]⟩ :=
  c1_encode_decode_roundtrip
    ⟨["candid", "status", "objectId"],
      [[Pv.pInt 697251923115015002, Pv.pStr "ok", Pv.pStr "ZTF18aceatkx"]]⟩
    "2.2" "2.0.0" [AvroType.aInt, AvroType.aStr]
    (by decide) (by decide) (by decide) (by decide)

/-! ## Column regrouping lemmas -/

theorem findCol_ok (cs : List String) (n : String) (h : countOcc cs n = 1) :
    findCol cs n = .ok (idxOfName cs n) := by
  simp [findCol, h]

theorem resolveCols_ok (cs : List String) :
    ∀ names, (∀ n ∈ names, countOcc cs n = 1) →
      resolveCols cs names = .ok (names.map (idxOfName cs)) := by
  intro names
  induction names with
  | nil => intro _; rfl
  | cons n ns ih =>
    intro hmem
    have h1 := findCol_ok cs n (hmem n (List.mem_cons_self n ns))
    have h2 := ih (fun m hm => hmem m (List.mem_cons_of_mem n hm))
    simp [resolveCols, h1, h2, Bind.bind, Except.bind]

theorem idxOfName_lt_length (cs : List String) (n : String) (h : n ∈ cs) :
    idxOfName cs n < cs.length := by
  induction cs with
  | nil => cases h
  | cons c cs ih =>
    by_cases hc : c = n
    · simp [idxOfName, hc]
    · have hm : n ∈ cs := by
        rcases List.mem_cons.mp h with heq | hmem
        · exact absurd heq.symm hc
        · exact hmem
      simp only [idxOfName, if_neg hc, List.length_cons]
      exact Nat.succ_lt_succ (ih hm)

theorem eraseIdx_idxOfName (cs : List String) (n : String) :
    cs.eraseIdx (idxOfName cs n) = cs.erase n := by
  induction cs with
  | nil => rfl
  | cons c cs ih =>
    by_cases hc : c = n
    · simp [idxOfName, hc, List.erase_cons]
    · have hcb : (c == n) = false := beq_eq_false_iff_ne.mpr hc
      have hne : ¬ ((c == n) = true) := by rw [hcb]; exact Bool.false_ne_true
      rw [idxOfName]
      rw [if_neg hc, List.eraseIdx_cons_succ, List.erase_cons, if_neg hne, ih]

theorem length_filter_partition {α : Type} (p : α → Bool) :
    ∀ l : List α, (l.filter p).length + (l.filter (fun a => !(p a))).length = l.length := by
  intro l
  induction l with
  | nil => rfl
  | cons x xs ih =>
    by_cases hx : p x = true
    · simp [List.filter_cons, hx, Nat.succ_add, ih]
    · have hx2 : p x = false := by
        cases hp : p x
        · rfl
        · exact absurd hp hx
      rw [List.filter_cons, List.filter_cons, hx2]
      simp only [Bool.not_false, if_neg Bool.false_ne_true, eq_self_iff_true, if_true]
      simp only [List.length_cons]
      omega

theorem sum_map_ones {α : Type} :
    ∀ l : List α, (l.map (fun _ => (1 : Nat))).sum = l.length := by
  intro l
  induction l with
  | nil => rfl
  | cons x xs ih => simp [List.map_cons, List.sum_cons, ih, Nat.add_comm]

theorem length_flatMap_sum {α β : Type} (f : α → List β) :
    ∀ l : List α, (l.flatMap f).length = (l.map (fun a => (f a).length)).sum := by
  intro l
  induction l with
  | nil => rfl
  | cons x xs ih => simp [List.flatMap_cons, List.length_append, ih]

theorem filter_beq_nil_len {α β : Type} [DecidableEq α] (f : β → α) (k : α) :
    ∀ xs : List β, (∀ y ∈ xs, f y ≠ k) → (xs.filter (fun y => f y == k)).length = 0 := by
  intro xs
  induction xs with
  | nil => intro _; rfl
  | cons z zs ih =>
    intro h
    have hz : (f z == k) = false :=
      beq_eq_false_iff_ne.mpr (h z (List.mem_cons_self z zs))
    simp only [List.filter_cons, hz, Bool.false_eq_true, if_neg]
    exact ih (fun y hy => h y (List.mem_cons_of_mem z hy))

theorem nodup_key_filter_len {α β : Type} [DecidableEq α] (f : β → α) :
    ∀ (xs : List β) (x : β), (xs.map f).Nodup → x ∈ xs →
      (xs.filter (fun y => f y == f x)).length = 1 := by
  intro xs
  induction xs with
  | nil => intro x _ hx; cases hx
  | cons z zs ih =>
    intro x hnd hx
    rw [List.map_cons, List.nodup_cons] at hnd
    have hz : f z ∉ zs.map f := hnd.1
    have hnd2 : (zs.map f).Nodup := hnd.2
    rcases List.mem_cons.mp hx with heq | hmem
    · subst heq
      have hself : (f x == f x) = true := beq_self_eq_true (f x)
      simp only [List.filter_cons, hself, if_pos, List.length_cons]
      have h0 : (zs.filter (fun y => f y == f x)).length = 0 := by
        apply filter_beq_nil_len
        intro y hy hc
        exact hz (hc ▸ List.mem_map_of_mem f hy)
      omega
    · have hne : (f z == f x) = false := by
        apply beq_eq_false_iff_ne.mpr
        intro hc
        exact hz (hc ▸ List.mem_map_of_mem f hmem)
      simp only [List.filter_cons, hne, Bool.false_eq_true, if_neg]
      exact ih x hnd2 hmem

theorem strDrop_inj_of_pre (pre : String) (c1 c2 : String)
    (h1 : strStartsWith c1 pre = true) (h2 : strStartsWith c2 pre = true)
    (heq : strDrop c1 pre.length = strDrop c2 pre.length) : c1 = c2 := by
  unfold strStartsWith at h1 h2
  unfold strDrop at heq
  rw [List.isPrefixOf_iff_prefix] at h1 h2
  obtain ⟨t1, ht1⟩ := h1
  obtain ⟨t2, ht2⟩ := h2
  have hd : c1.data.drop pre.data.length = c2.data.drop pre.data.length :=
    congrArg String.data heq
  rw [← ht1, ← ht2, List.drop_left, List.drop_left] at hd
  have hdata : c1.data = c2.data := by rw [← ht1, ← ht2, hd]
  cases c1
  cases c2
  exact congrArg String.mk hdata

theorem selectKeyStruct_explicit (cols2 : List String) (rows2 : List (List Pv))
    (key : String) (members : List String) (al : String)
    (hk : countOcc cols2 key = 1)
    (hm : ∀ m ∈ members, countOcc cols2 m = 1)
    (hflat : ∀ r ∈ rows2, r.all isScalarCell = true) :
    selectKeyStruct ⟨cols2, rows2⟩ key members al
      = .ok ⟨[key, al], rows2.map (fun r =>
          [r.getD (idxOfName cols2 key) default,
           Pv.pStruct (members.zip (members.map
             (fun m => scOf (r.getD (idxOfName cols2 m) default))))])⟩ := by
  have hres := resolveCols_ok cols2 members hm
  have hmap := mapExcept_ok rows2
    (fun r => (scalarsAt r (members.map (idxOfName cols2))).map
      (fun vs => [r.getD (idxOfName cols2 key) default, Pv.pStruct (members.zip vs)]))
    (fun r => [r.getD (idxOfName cols2 key) default,
      Pv.pStruct (members.zip (members.map
        (fun m => scOf (r.getD (idxOfName cols2 m) default))))])
    (fun r hr => by
      simp [scalarsAt_flat r (hflat r hr), Except.map, List.map_map]
      rfl)
  simp only [selectKeyStruct, findCol_ok cols2 key hk, hres, Bind.bind, Except.bind,
    hmap]

theorem joinUsing_explicit (cols1 : List String) (rows1 : List (List Pv))
    (cols2 : List String) (rows2 : List (List Pv)) (key : String)
    (h1 : countOcc cols1 key = 1) (h2 : countOcc cols2 key = 1) :
    joinUsing ⟨cols1, rows1⟩ ⟨cols2, rows2⟩ key = .ok ⟨
      key :: (cols1.eraseIdx (idxOfName cols1 key)
        ++ cols2.eraseIdx (idxOfName cols2 key)),
      rows1.flatMap (fun r1 =>
        (rows2.filter (fun r2 =>
          r2.getD (idxOfName cols2 key) default
            == r1.getD (idxOfName cols1 key) default)).map
          (fun r2 => r1.getD (idxOfName cols1 key) default
            :: (r1.eraseIdx (idxOfName cols1 key)
              ++ r2.eraseIdx (idxOfName cols2 key))))⟩ := by
  simp [joinUsing, findCol_ok cols1 key h1, findCol_ok cols2 key h2,
    Bind.bind, Except.bind]

/-- Full description of the regrouping output under the sanity conditions
that make every Spark name resolution unambiguous: distinct columns, a key
column that is not itself prefix-named, differs from the family name, and
collides with no prefix-stripped name; key values unique. -/
theorem group_df_output (df : DF) (colfamily key : String)
    (hnd : df.cols.Nodup)
    (hflat : ∀ r ∈ df.rows, r.all isScalarCell = true)
    (hkmem : key ∈ df.cols)
    (hkp : strStartsWith key (colfamily ++ "_") = false)
    (hkc : colfamily ≠ key)
    (hks : ∀ c ∈ df.cols, strStartsWith c (colfamily ++ "_") = true →
      strDrop c (colfamily.length + 1) ≠ key)
    (hkeys : (df.rows.map (fun r => r.getD (idxOfName df.cols key) default)).Nodup) :
    ∃ rowsOut : List (List Pv),
      group_df_into_struct df colfamily key
        = .ok ⟨key :: (((df.cols.filter
              (fun c => !(strStartsWith c (colfamily ++ "_")))).erase key)
            ++ [colfamily]), rowsOut⟩
        ∧ rowsOut.length = df.rows.length := by
  have hPlen : (colfamily ++ "_").length = colfamily.length + 1 := by
    rw [String.length_append]
    rfl
  have hsub1 : ∀ n ∈ df.cols.filter (fun c => !(strStartsWith c (colfamily ++ "_"))),
      n ∈ df.cols := fun n hn => (List.mem_filter.mp hn).1
  have hnd1 : (df.cols.filter (fun c => !(strStartsWith c (colfamily ++ "_")))).Nodup :=
    hnd.filter _
  have hSCnd : (df.cols.filter (fun c => strStartsWith c (colfamily ++ "_"))).Nodup :=
    hnd.filter _
  have hkFC : key ∈ df.cols.filter (fun c => !(strStartsWith c (colfamily ++ "_"))) :=
    List.mem_filter.mpr ⟨hkmem, by rw [hkp]; rfl⟩
  have hstrnd : ((df.cols.filter (fun c => strStartsWith c (colfamily ++ "_"))).map
      (fun c => strDrop c (colfamily.length + 1))).Nodup := by
    apply List.Nodup.map_on ?_ hSCnd
    intro c1 h1 c2 h2 heq
    rw [← hPlen] at heq
    exact strDrop_inj_of_pre (colfamily ++ "_") c1 c2
      (List.mem_filter.mp h1).2 (List.mem_filter.mp h2).2 heq
  have hkstr : key ∉ (df.cols.filter (fun c => strStartsWith c (colfamily ++ "_"))).map
      (fun c => strDrop c (colfamily.length + 1)) := by
    intro hmem
    rcases List.mem_map.mp hmem with ⟨c, hc, heq⟩
    exact hks c (List.mem_filter.mp hc).1 (List.mem_filter.mp hc).2 heq
  have hsel1 := select_nodup df
    (df.cols.filter (fun c => !(strStartsWith c (colfamily ++ "_")))) hnd hsub1
  have hsel2 := select_nodup df
    (key :: df.cols.filter (fun c => strStartsWith c (colfamily ++ "_"))) hnd (by
      intro n hn
      rcases List.mem_cons.mp hn with rfl | hns
      · exact hkmem
      · exact (List.mem_filter.mp hns).1)
  have hflat2 : ∀ r ∈ df.rows.map (fun r =>
      (key :: df.cols.filter (fun c => strStartsWith c (colfamily ++ "_"))).map
        (fun n => r.getD (idxOfName df.cols n) default)),
      r.all isScalarCell = true := by
    intro r1 hr1
    rcases List.mem_map.mp hr1 with ⟨r, hr, rfl⟩
    rw [List.all_eq_true]
    intro v hv
    rcases List.mem_map.mp hv with ⟨n, _, rfl⟩
    exact isScalarCell_getD r (hflat r hr) _
  have hcntk : countOcc (key :: (df.cols.filter
      (fun c => strStartsWith c (colfamily ++ "_"))).map
      (fun c => strDrop c (colfamily.length + 1))) key = 1 := by
    rw [countOcc_cons, if_pos rfl, countOcc_eq_zero _ key hkstr]
  have hcntm : ∀ m ∈ (df.cols.filter (fun c => strStartsWith c (colfamily ++ "_"))).map
      (fun c => strDrop c (colfamily.length + 1)),
      countOcc (key :: (df.cols.filter (fun c => strStartsWith c (colfamily ++ "_"))).map
        (fun c => strDrop c (colfamily.length + 1))) m = 1 := by
    intro m hm
    have hmk : ¬ key = m := fun h => hkstr (h ▸ hm)
    rw [countOcc_cons, if_neg hmk, countOcc_eq_one_of_nodup _ m hstrnd hm]
  have hKS := selectKeyStruct_explicit
    (key :: (df.cols.filter (fun c => strStartsWith c (colfamily ++ "_"))).map
      (fun c => strDrop c (colfamily.length + 1)))
    (df.rows.map (fun r =>
      (key :: df.cols.filter (fun c => strStartsWith c (colfamily ++ "_"))).map
        (fun n => r.getD (idxOfName df.cols n) default)))
    key
    ((df.cols.filter (fun c => strStartsWith c (colfamily ++ "_"))).map
      (fun c => strDrop c (colfamily.length + 1)))
    colfamily hcntk hcntm hflat2
  have hcnt1 : countOcc (df.cols.filter
      (fun c => !(strStartsWith c (colfamily ++ "_")))) key = 1 :=
    countOcc_eq_one_of_nodup _ _ hnd1 hkFC
  have hcnt2 : countOcc [key, colfamily] key = 1 := by
    rw [countOcc_cons, if_pos rfl, countOcc_cons, if_neg hkc]
    rfl
  have hjoin := joinUsing_explicit
    (df.cols.filter (fun c => !(strStartsWith c (colfamily ++ "_"))))
    (df.rows.map (fun r =>
      (df.cols.filter (fun c => !(strStartsWith c (colfamily ++ "_")))).map
        (fun n => r.getD (idxOfName df.cols n) default)))
    [key, colfamily]
    ((df.rows.map (fun r =>
      (key :: df.cols.filter (fun c => strStartsWith c (colfamily ++ "_"))).map
        (fun n => r.getD (idxOfName df.cols n) default))).map (fun r =>
      [r.getD (idxOfName (key :: (df.cols.filter
          (fun c => strStartsWith c (colfamily ++ "_"))).map
          (fun c => strDrop c (colfamily.length + 1))) key) default,
       Pv.pStruct (((df.cols.filter (fun c => strStartsWith c (colfamily ++ "_"))).map
          (fun c => strDrop c (colfamily.length + 1))).zip
        (((df.cols.filter (fun c => strStartsWith c (colfamily ++ "_"))).map
          (fun c => strDrop c (colfamily.length + 1))).map
          (fun m => scOf (r.getD (idxOfName (key :: (df.cols.filter
            (fun c => strStartsWith c (colfamily ++ "_"))).map
            (fun c => strDrop c (colfamily.length + 1))) m) default))))]))
    key hcnt1 hcnt2
  have hchain : group_df_into_struct df colfamily key
      = joinUsing
        ⟨df.cols.filter (fun c => !(strStartsWith c (colfamily ++ "_"))),
          df.rows.map (fun r =>
            (df.cols.filter (fun c => !(strStartsWith c (colfamily ++ "_")))).map
              (fun n => r.getD (idxOfName df.cols n) default))⟩
        ⟨[key, colfamily],
          (df.rows.map (fun r =>
            (key :: df.cols.filter (fun c => strStartsWith c (colfamily ++ "_"))).map
              (fun n => r.getD (idxOfName df.cols n) default))).map (fun r =>
            [r.getD (idxOfName (key :: (df.cols.filter
                (fun c => strStartsWith c (colfamily ++ "_"))).map
                (fun c => strDrop c (colfamily.length + 1))) key) default,
             Pv.pStruct (((df.cols.filter (fun c => strStartsWith c (colfamily ++ "_"))).map
                (fun c => strDrop c (colfamily.length + 1))).zip
              (((df.cols.filter (fun c => strStartsWith c (colfamily ++ "_"))).map
                (fun c => strDrop c (colfamily.length + 1))).map
                (fun m => scOf (r.getD (idxOfName (key :: (df.cols.filter
                  (fun c => strStartsWith c (colfamily ++ "_"))).map
                  (fun c => strDrop c (colfamily.length + 1))) m) default))))])⟩
        key := by
    simp only [group_df_into_struct, hsel1, hsel2, except_bind_ok, DF.toDFRenamed, hKS]
  have htotal := hchain.trans hjoin
  simp only [eraseIdx_idxOfName, List.erase_cons_head] at htotal
  refine ⟨_, htotal, ?_⟩
  rw [length_flatMap_sum]
  have hone : ∀ r1 ∈ df.rows.map (fun r =>
      (df.cols.filter (fun c => !(strStartsWith c (colfamily ++ "_")))).map
        (fun n => r.getD (idxOfName df.cols n) default)),
      ((((df.rows.map (fun r =>
        (key :: df.cols.filter (fun c => strStartsWith c (colfamily ++ "_"))).map
          (fun n => r.getD (idxOfName df.cols n) default))).map (fun r =>
        [r.getD (idxOfName (key :: (df.cols.filter
            (fun c => strStartsWith c (colfamily ++ "_"))).map
            (fun c => strDrop c (colfamily.length + 1))) key) default,
         Pv.pStruct (((df.cols.filter (fun c => strStartsWith c (colfamily ++ "_"))).map
            (fun c => strDrop c (colfamily.length + 1))).zip
          (((df.cols.filter (fun c => strStartsWith c (colfamily ++ "_"))).map
            (fun c => strDrop c (colfamily.length + 1))).map
            (fun m => scOf (r.getD (idxOfName (key :: (df.cols.filter
              (fun c => strStartsWith c (colfamily ++ "_"))).map
              (fun c => strDrop c (colfamily.length + 1))) m) default))))])).filter
          (fun r2 => r2.getD (idxOfName [key, colfamily] key) default
            == r1.getD (idxOfName (df.cols.filter
              (fun c => !(strStartsWith c (colfamily ++ "_")))) key) default)).map
          (fun r2 => r1.getD (idxOfName (df.cols.filter
              (fun c => !(strStartsWith c (colfamily ++ "_")))) key) default
            :: (r1.eraseIdx (idxOfName (df.cols.filter
                (fun c => !(strStartsWith c (colfamily ++ "_")))) key)
              ++ r2.eraseIdx (idxOfName [key, colfamily] key)))).length = 1 := by
    intro r1 hr1
    rcases List.mem_map.mp hr1 with ⟨r, hr, rfl⟩
    rw [List.length_map, List.map_map, List.filter_map, List.length_map]
    have hkey1 : ((df.cols.filter (fun c => !(strStartsWith c (colfamily ++ "_")))).map
        (fun n => r.getD (idxOfName df.cols n) default)).getD
          (idxOfName (df.cols.filter
            (fun c => !(strStartsWith c (colfamily ++ "_")))) key) default
        = r.getD (idxOfName df.cols key) default :=
      getD_map_idxOfName _ _ key default hkFC
    rw [hkey1]
    rw [List.filter_congr (q := fun r2 =>
      r2.getD (idxOfName df.cols key) default == r.getD (idxOfName df.cols key) default)]
    · exact nodup_key_filter_len (fun r2 => r2.getD (idxOfName df.cols key) default)
        df.rows r hkeys hr
    · intro r2 _
      simp only [Function.comp_apply, List.map_cons, List.getD_cons_zero]
      have hidx0 : idxOfName (key :: (df.cols.filter
          (fun c => strStartsWith c (colfamily ++ "_"))).map
          (fun c => strDrop c (colfamily.length + 1))) key = 0 := by
        simp [idxOfName]
      have hidxj : idxOfName [key, colfamily] key = 0 := by
        simp [idxOfName]
      rw [hidx0, hidxj]
      simp only [List.getD_cons_zero]
  rw [List.map_congr_left hone]
  rw [sum_map_ones, List.length_map]

/-- C5 (amended): under the well-formedness conditions that make every
column reference unambiguous, regrouping preserves the row count and has
len(cols) minus the number of prefixed columns plus one columns. -/
theorem c5_regroup_shape (df : DF) (colfamily key : String)
    (hnd : df.cols.Nodup)
    (hflat : ∀ r ∈ df.rows, r.all isScalarCell = true)
    (hkmem : key ∈ df.cols)
    (hkp : strStartsWith key (colfamily ++ "_") = false)
    (hkc : colfamily ≠ key)
    (hks : ∀ c ∈ df.cols, strStartsWith c (colfamily ++ "_") = true →
      strDrop c (colfamily.length + 1) ≠ key)
    (hkeys : (df.rows.map (fun r => r.getD (idxOfName df.cols key) default)).Nodup) :
    ∃ out : DF, group_df_into_struct df colfamily key = .ok out
      ∧ out.rows.length = df.rows.length
      ∧ out.cols.length = df.cols.length
          - (df.cols.filter (fun c => strStartsWith c (colfamily ++ "_"))).length + 1 := by
  obtain ⟨rowsOut, heq, hlen⟩ :=
    group_df_output df colfamily key hnd hflat hkmem hkp hkc hks hkeys
  refine ⟨_, heq, hlen, ?_⟩
  have hkFC : key ∈ df.cols.filter (fun c => !(strStartsWith c (colfamily ++ "_"))) :=
    List.mem_filter.mpr ⟨hkmem, by rw [hkp]; rfl⟩
  have hpart := length_filter_partition
    (fun c => strStartsWith c (colfamily ++ "_")) df.cols
  have hpos : 0 < (df.cols.filter
      (fun c => !(strStartsWith c (colfamily ++ "_")))).length :=
    List.length_pos_of_mem hkFC
  rw [List.length_cons, List.length_append, List.length_erase_of_mem hkFC,
    List.length_singleton]
  omega

/-- C5 witness: the amended shape statement evaluated on the doctest
table (objectId, candid, candidate_ra, candidate_dec). -/
theorem c5_witness :
    ∃ out : DF, group_df_into_struct
        ⟨["objectId", "candid", "candidate_ra", "candidate_dec"],
          [[Pv.pStr "Z1", Pv.pInt 1, Pv.pInt 11, Pv.pInt 12],
           [Pv.pStr "Z2", Pv.pInt 2, Pv.pInt 21, Pv.pInt 22]]⟩ "candidate" "objectId"
        = .ok out
      ∧ out.rows.length = 2
      ∧ out.cols.length = 4
          - ((["objectId", "candid", "candidate_ra", "candidate_dec"] : List String).filter
              (fun c => strStartsWith c ("candidate" ++ "_"))).length + 1 :=
  c5_regroup_shape
    ⟨["objectId", "candid", "candidate_ra", "candidate_dec"],
      [[Pv.pStr "Z1", Pv.pInt 1, Pv.pInt 11, Pv.pInt 12],
       [Pv.pStr "Z2", Pv.pInt 2, Pv.pInt 21, Pv.pInt 22]]⟩ "candidate" "objectId"
    (by decide) (by decide) (by decide) (by decide) (by decide) (by decide) (by decide)

/-- C5 counterexample: a table with distinct columns and unique key values
on which the claim as stated fails, because stripping the prefix from
"candidate_id" collides with the key column "id" and the renamed frame
makes the reference to "id" ambiguous: the call raises instead of
returning a table of the promised shape. -/
theorem c5_counterexample :
    ((⟨["id", "candidate_id"], [[Pv.pInt 1, Pv.pInt 2]]⟩ : DF).rows.map
        (fun r => r.getD (idxOfName ["id", "candidate_id"] "id") default)).Nodup
    ∧ group_df_into_struct ⟨["id", "candidate_id"], [[Pv.pInt 1, Pv.pInt 2]]⟩
        "candidate" "id" = .error (.ambiguousCol "id")
    ∧ ∀ out : DF, group_df_into_struct ⟨["id", "candidate_id"], [[Pv.pInt 1, Pv.pInt 2]]⟩
        "candidate" "id" ≠ .ok out := by
  refine ⟨by decide, rfl, ?_⟩
  intro out h
  rw [show group_df_into_struct ⟨["id", "candidate_id"], [[Pv.pInt 1, Pv.pInt 2]]⟩
      "candidate" "id" = .error (.ambiguousCol "id") from rfl] at h
  exact Except.noConfusion h

/-- C6 (amended): the output column order is the key column first, then
the remaining non-prefixed columns in their original order, then the
nested field named after the prefix.  (The Spark using-column join moves
the key to the front.) -/
theorem c6_regroup_column_order (df : DF) (colfamily key : String)
    (hnd : df.cols.Nodup)
    (hflat : ∀ r ∈ df.rows, r.all isScalarCell = true)
    (hkmem : key ∈ df.cols)
    (hkp : strStartsWith key (colfamily ++ "_") = false)
    (hkc : colfamily ≠ key)
    (hks : ∀ c ∈ df.cols, strStartsWith c (colfamily ++ "_") = true →
      strDrop c (colfamily.length + 1) ≠ key)
    (hkeys : (df.rows.map (fun r => r.getD (idxOfName df.cols key) default)).Nodup) :
    ∃ out : DF, group_df_into_struct df colfamily key = .ok out
      ∧ out.cols = key :: (((df.cols.filter
          (fun c => !(strStartsWith c (colfamily ++ "_")))).erase key)
        ++ [colfamily]) := by
  obtain ⟨rowsOut, heq, _⟩ :=
    group_df_output df colfamily key hnd hflat hkmem hkp hkc hks hkeys
  exact ⟨_, heq, rfl⟩

/-- C6 witness: the amended column order statement evaluated on a table
whose key column is not the first column. -/
theorem c6_witness :
    ∃ out : DF, group_df_into_struct
        ⟨["mag", "objectId", "candidate_ra"],
          [[Pv.pInt 17, Pv.pStr "Za", Pv.pInt 30]]⟩ "candidate" "objectId"
        = .ok out
      ∧ out.cols = "objectId" :: ((["mag", "objectId"].erase "objectId") ++ ["candidate"]) := by
  have h := c6_regroup_column_order
    ⟨["mag", "objectId", "candidate_ra"], [[Pv.pInt 17, Pv.pStr "Za", Pv.pInt 30]]⟩
    "candidate" "objectId"
    (by decide) (by decide) (by decide) (by decide) (by decide) (by decide) (by decide)
  obtain ⟨out, heq, hcols⟩ := h
  exact ⟨out, heq, hcols.trans (by decide)⟩

/-- C6 counterexample: when the key column is not the first non-prefixed
column, the output order is not the non-prefixed columns in original
order followed by the nested field: the key is moved to the front by the
using-column join. -/
theorem c6_counterexample :
    group_df_into_struct ⟨["a", "id", "candidate_x"],
        [[Pv.pInt 0, Pv.pInt 1, Pv.pInt 2]]⟩ "candidate" "id"
      = .ok ⟨["id", "a", "candidate"],
          [[Pv.pInt 1, Pv.pInt 0, Pv.pStruct [("x", Scalar.sInt 2)]]]⟩
    ∧ (["id", "a", "candidate"] : List String) ≠ ["a", "id"] ++ ["candidate"] := by
  exact ⟨rfl, by decide⟩

/-! ## Ephemerides enricher lemmas -/

theorem except_bind_err {α β ε : Type} (e : ε) (f : α → Except ε β) :
    (Except.error e : Except ε α) >>= f = .error e := rfl

theorem processGroup_passthrough_timeout (lg : ℚ → ℚ) (oEc : MOutcome)
    (wec : Bool) (sub : PDF) :
    processGroup lg .timeout oEc wec sub = .ok sub := rfl

theorem processGroup_passthrough_noData (lg : ℚ → ℚ) (oEc : MOutcome)
    (wec : Bool) (sub : PDF) :
    processGroup lg .noData oEc wec sub = .ok sub := rfl

theorem processGroup_fatal (lg : ℚ → ℚ) (oEq oEc : MOutcome) (wec : Bool)
    (sub : PDF) (h : oEq = .connError ∨ oEq = .badJson) :
    ∃ e, processGroup lg oEq oEc wec sub = .error e := by
  rcases h with rfl | rfl
  · exact ⟨.requestError, rfl⟩
  · exact ⟨.jsonError, rfl⟩

theorem processGroups_error_of_fatal (lg : ℚ → ℚ)
    (oracle : Val → Bool → MOutcome) (pdf : PDF) (wec : Bool) :
    ∀ (gs : List Val) (g : Val), g ∈ gs →
      (oracle g true = .connError ∨ oracle g true = .badJson) →
      ∃ e, processGroups lg oracle pdf wec gs = .error e := by
  intro gs
  induction gs with
  | nil => intro g hg; cases hg
  | cons g' gs' ih =>
    intro g hg hfat
    rcases List.mem_cons.mp hg with rfl | hmem
    · obtain ⟨e, he⟩ := processGroup_fatal lg (oracle g true) (oracle g false) wec
        (subDf pdf g) hfat
      refine ⟨e, ?_⟩
      simp [processGroups, processGroupO, he, Bind.bind, Except.bind]
    · cases hpg : processGroupO lg oracle pdf wec g' with
      | error e =>
        refine ⟨e, ?_⟩
        simp [processGroups, hpg, Bind.bind, Except.bind]
      | ok info =>
        obtain ⟨e, he⟩ := ih g hmem hfat
        refine ⟨e, ?_⟩
        simp [processGroups, hpg, he, Bind.bind, Except.bind]

theorem processGroups_ok_of_all (lg : ℚ → ℚ)
    (oracle : Val → Bool → MOutcome) (pdf : PDF) (wec : Bool) :
    ∀ gs : List Val, (∀ g ∈ gs, ∃ info, processGroupO lg oracle pdf wec g = .ok info) →
      ∃ infos, processGroups lg oracle pdf wec gs = .ok infos
        ∧ infos.length = gs.length := by
  intro gs
  induction gs with
  | nil => intro _; exact ⟨[], rfl, rfl⟩
  | cons g' gs' ih =>
    intro h
    obtain ⟨info, hinfo⟩ := h g' (List.mem_cons_self g' gs')
    obtain ⟨infos, hinfos, hlen⟩ := ih (fun g hg => h g (List.mem_cons_of_mem g' hg))
    refine ⟨info :: infos, ?_, by simp [hlen]⟩
    simp [processGroups, hinfo, hinfos, Bind.bind, Except.bind]

/-- C10: query_miriade converts exactly two failure modes into the empty
pass-through result, a read timeout and a missing data key; a connection
failure and a non-JSON body raise, and such an exception propagates out
of get_miriade_data, aborting the whole batch. -/
theorem c10_query_miriade_failure_modes :
    (query_miriade .timeout = .ok ⟨[], []⟩)
    ∧ (query_miriade .noData = .ok ⟨[], []⟩)
    ∧ (query_miriade .connError = .error .requestError)
    ∧ (query_miriade .badJson = .error .jsonError)
    ∧ (∀ d, query_miriade (.withData d) = .ok d)
    ∧ (∀ o, (∃ e, query_miriade o = .error e) ↔ (o = .connError ∨ o = .badJson))
    ∧ (∀ (lg : ℚ → ℚ) (oracle : Val → Bool → MOutcome) (pdf : PDF) (wec : Bool)
        (sv : List Val) (g : Val),
        getCol pdf "i:ssnamenr" = .ok sv →
        g ∈ uniqueSorted sv →
        (oracle g true = .connError ∨ oracle g true = .badJson) →
        ∃ e, get_miriade_data lg oracle pdf wec = .error e) := by
  refine ⟨rfl, rfl, rfl, rfl, fun d => rfl, ?_, ?_⟩
  · intro o
    constructor
    · intro ⟨e, he⟩
      cases o with
      | timeout => cases he
      | connError => exact Or.inl rfl
      | badJson => exact Or.inr rfl
      | noData => cases he
      | withData d => cases he
    · intro h
      rcases h with rfl | rfl
      · exact ⟨.requestError, rfl⟩
      · exact ⟨.jsonError, rfl⟩
  · intro lg oracle pdf wec sv g hsv hg hfat
    obtain ⟨e, he⟩ := processGroups_error_of_fatal lg oracle pdf wec
      (uniqueSorted sv) g hg hfat
    refine ⟨e, ?_⟩
    simp [get_miriade_data, hsv, he, Bind.bind, Except.bind]

/-- C10 witness: the propagation clause evaluated on a one-row frame whose
single group suffers a connection failure. -/
theorem c10_witness :
    ∃ e, get_miriade_data (fun q => q) (fun _ _ => MOutcome.connError)
        ⟨["i:ssnamenr", "i:jd", "i:magpsf"],
          [[Val.str "8467", Val.num 2459000, Val.num 18]]⟩ true = .error e :=
  c10_query_miriade_failure_modes.2.2.2.2.2.2 (fun q => q)
    (fun _ _ => MOutcome.connError)
    ⟨["i:ssnamenr", "i:jd", "i:magpsf"],
      [[Val.str "8467", Val.num 2459000, Val.num 18]]⟩ true
    [Val.str "8467"] (Val.str "8467") (by decide) (by decide) (Or.inl rfl)

/-- C3 (amended): when the primary (equatorial) query of a group fails
recoverably (timeout or missing data key), that group's rows pass through
unmodified whatever the ecliptic outcome is, and such a failure never
aborts the batch: when every group processes without raising, the whole
call returns a frame, and in the single-group case the returned frame is
exactly the untouched group.  (The original claim also asserted the
pass-through for a failing ecliptic query; that part is refuted by the
counterexample: an empty ecliptic response raises KeyError.) -/
theorem c3_partial_failure_passthrough :
    (∀ (lg : ℚ → ℚ) (oEc : MOutcome) (wec : Bool) (sub : PDF),
      processGroup lg .timeout oEc wec sub = .ok sub)
    ∧ (∀ (lg : ℚ → ℚ) (oEc : MOutcome) (wec : Bool) (sub : PDF),
      processGroup lg .noData oEc wec sub = .ok sub)
    ∧ (∀ (lg : ℚ → ℚ) (oracle : Val → Bool → MOutcome) (pdf : PDF) (wec : Bool)
        (sv : List Val),
        getCol pdf "i:ssnamenr" = .ok sv →
        uniqueSorted sv ≠ [] →
        (∀ g ∈ uniqueSorted sv, ∃ info, processGroupO lg oracle pdf wec g = .ok info) →
        ∃ out, get_miriade_data lg oracle pdf wec = .ok out)
    ∧ (∀ (lg : ℚ → ℚ) (oracle : Val → Bool → MOutcome) (pdf : PDF) (wec : Bool)
        (sv : List Val) (g : Val),
        getCol pdf "i:ssnamenr" = .ok sv →
        uniqueSorted sv = [g] →
        primaryEmptyFail (oracle g true) →
        get_miriade_data lg oracle pdf wec = .ok (subDf pdf g)) := by
  refine ⟨processGroup_passthrough_timeout, processGroup_passthrough_noData, ?_, ?_⟩
  · intro lg oracle pdf wec sv hsv hne hall
    obtain ⟨infos, hinfos, hlen⟩ := processGroups_ok_of_all lg oracle pdf wec
      (uniqueSorted sv) hall
    cases infos with
    | nil =>
      exact absurd (List.length_eq_zero.mp hlen.symm) hne
    | cons x rest =>
      cases rest with
      | nil =>
        refine ⟨x, ?_⟩
        simp [get_miriade_data, hsv, hinfos, Bind.bind, Except.bind]
      | cons y rest2 =>
        refine ⟨concatRows (x :: y :: rest2), ?_⟩
        simp [get_miriade_data, hsv, hinfos, Bind.bind, Except.bind]
  · intro lg oracle pdf wec sv g hsv huniq hfail
    have hpass : processGroupO lg oracle pdf wec g = .ok (subDf pdf g) := by
      rcases hfail with h | h <;>
        simp [processGroupO, h, processGroup_passthrough_timeout,
          processGroup_passthrough_noData]
    have hgr : processGroups lg oracle pdf wec [g] = .ok [subDf pdf g] := by
      simp [processGroups, hpass, Bind.bind, Except.bind]
    simp [get_miriade_data, hsv, huniq, hgr, Bind.bind, Except.bind]

/-- C3 witness: the single-group pass-through clause evaluated on a
one-row frame whose primary query times out (ecliptic requested). -/
theorem c3_witness :
    get_miriade_data (fun q => q) (fun _ _ => MOutcome.timeout)
        ⟨["i:ssnamenr", "i:jd", "i:magpsf"],
          [[Val.str "1862", Val.num 2459100, Val.num 17]]⟩ true
      = .ok (subDf ⟨["i:ssnamenr", "i:jd", "i:magpsf"],
          [[Val.str "1862", Val.num 2459100, Val.num 17]]⟩ (Val.str "1862")) :=
  c3_partial_failure_passthrough.2.2.2 (fun q => q) (fun _ _ => MOutcome.timeout)
    ⟨["i:ssnamenr", "i:jd", "i:magpsf"],
      [[Val.str "1862", Val.num 2459100, Val.num 17]]⟩ true
    [Val.str "1862"] (Val.str "1862") (by decide) (by decide) (Or.inl rfl)

/-- C3 counterexample: a group whose primary query succeeds but whose
ecliptic query times out makes the whole call raise KeyError (the code
reads the Longitude column of the empty ecliptic frame without checking
emptiness), so the rows do not pass through and the batch aborts. -/
theorem c3_counterexample :
    get_miriade_data (fun _ => 0) (fun _ primary =>
        if primary then
          MOutcome.withData ⟨["RA", "DEC", "Dobs", "Dhelio"],
            [[Val.num 10, Val.num 20, Val.num (6/5), Val.num (23/10)]]⟩
        else MOutcome.timeout)
      ⟨["i:ssnamenr", "i:jd", "i:magpsf"],
        [[Val.str "8467", Val.num 2459000, Val.num 18]]⟩ true
    = .error (.keyError "Longitude") := by
  decide


theorem except_bind_ok_inv {α β ε : Type} {x : Except ε α} {f : α → Except ε β} {b : β}
    (h : Except.bind x f = .ok b) : ∃ a, x = .ok a ∧ f a = .ok b := by
  cases x with
  | ok a => exact ⟨a, rfl, h⟩
  | error e => exact Except.noConfusion h

/-- C9: on the success path of a group, the frame returned by the
enricher is the merged frame with the reduced magnitude column assigned
elementwise as magpsf - 5 * log10(Dobs * Dhelio) (redMagVals), and on the
concrete row with magpsf 18.0, Dobs 1.2 and Dhelio 2.3 the reduced
magnitude is exactly 18 - 5 * log10(1.2 * 2.3), for every log10. -/
theorem c9_reduced_magnitude (lg : ℚ → ℚ) :
    (∀ (oEq oEc : MOutcome) (wec : Bool) (sub info : PDF) (d : PDF),
      processGroup lg oEq oEc wec sub = .ok info →
      oEq = .withData d →
      d.isEmptyDf = false →
      ∃ eph4 ms ds hs,
        getCol (dedupCols (concatCols (resetIndex eph4) (resetIndex sub)))
          "i:magpsf" = .ok ms
        ∧ getCol (dedupCols (concatCols (resetIndex eph4) (resetIndex sub)))
          "Dobs" = .ok ds
        ∧ getCol (dedupCols (concatCols (resetIndex eph4) (resetIndex sub)))
          "Dhelio" = .ok hs
        ∧ assignCol (dedupCols (concatCols (resetIndex eph4) (resetIndex sub)))
          "i:magpsf_red" (redMagVals lg ms ds hs) = .ok info)
    ∧ ((get_miriade_data lg
        (fun _ primary => if primary then
          MOutcome.withData ⟨["RA", "DEC", "Dobs", "Dhelio"],
            [[Val.num 10, Val.num 20, Val.num (6/5), Val.num (23/10)]]⟩
          else MOutcome.timeout)
        ⟨["i:ssnamenr", "i:jd", "i:magpsf"],
          [[Val.str "8467", Val.num 2459000, Val.num 18]]⟩ false
        >>= fun out => getCol out "i:magpsf_red")
      = .ok [Val.num ((18 : ℚ) - 5 * lg ((1.2 : ℚ) * (2.3 : ℚ)))]) := by
  constructor
  · intro oEq oEc wec sub info d hok hd hne
    subst hd
    simp only [processGroup, query_miriade, Bind.bind, Except.bind, hne,
      Bool.false_eq_true, if_false] at hok
    obtain ⟨ras, _, hok⟩ := except_bind_ok_inv hok
    obtain ⟨decs, _, hok⟩ := except_bind_ok_inv hok
    obtain ⟨eph1, _, hok⟩ := except_bind_ok_inv hok
    obtain ⟨eph2, _, hok⟩ := except_bind_ok_inv hok
    obtain ⟨eph3, _, hok⟩ := except_bind_ok_inv hok
    cases wec with
    | false =>
      rw [if_neg Bool.false_ne_true] at hok
      obtain ⟨ms, hms, hok⟩ := except_bind_ok_inv hok
      obtain ⟨ds, hds, hok⟩ := except_bind_ok_inv hok
      obtain ⟨hs, hhs, hok⟩ := except_bind_ok_inv hok
      exact ⟨eph3, ms, ds, hs, hms, hds, hhs, hok⟩
    | true =>
      rw [if_pos rfl] at hok
      obtain ⟨ephEc, _, hok⟩ := except_bind_ok_inv hok
      obtain ⟨lons, _, hok⟩ := except_bind_ok_inv hok
      obtain ⟨lats, _, hok⟩ := except_bind_ok_inv hok
      obtain ⟨e1, _, hok⟩ := except_bind_ok_inv hok
      obtain ⟨eph4, _, hok⟩ := except_bind_ok_inv hok
      obtain ⟨ms, hms, hok⟩ := except_bind_ok_inv hok
      obtain ⟨ds, hds, hok⟩ := except_bind_ok_inv hok
      obtain ⟨hs, hhs, hok⟩ := except_bind_ok_inv hok
      exact ⟨eph4, ms, ds, hs, hms, hds, hhs, hok⟩
  · have h : (get_miriade_data lg
        (fun _ primary => if primary then
          MOutcome.withData ⟨["RA", "DEC", "Dobs", "Dhelio"],
            [[Val.num 10, Val.num 20, Val.num (6/5), Val.num (23/10)]]⟩
          else MOutcome.timeout)
        ⟨["i:ssnamenr", "i:jd", "i:magpsf"],
          [[Val.str "8467", Val.num 2459000, Val.num 18]]⟩ false
        >>= fun out => getCol out "i:magpsf_red")
      = .ok [Val.num ((18 : ℚ) - lg ((1.2 : ℚ) * (2.3 : ℚ)) * 5)] := by
      with_unfolding_all rfl
    have hq : (18 : ℚ) - 5 * lg ((1.2 : ℚ) * (2.3 : ℚ))
        = (18 : ℚ) - lg ((1.2 : ℚ) * (2.3 : ℚ)) * 5 := by ring
    rw [hq]
    exact h

/-- C9 witness: the success-path clause instantiated on the concrete
one-row group, with log10 abstracted as the identity function. -/
theorem c9_witness :
    ∃ info, processGroup (fun q => q)
        (.withData ⟨["RA", "DEC", "Dobs", "Dhelio"],
          [[Val.num 10, Val.num 20, Val.num (6/5), Val.num (23/10)]]⟩)
        MOutcome.timeout false
        ⟨["i:ssnamenr", "i:jd", "i:magpsf"],
          [[Val.str "8467", Val.num 2459000, Val.num 18]]⟩ = .ok info
      ∧ ∃ eph4 ms ds hs,
        getCol (dedupCols (concatCols (resetIndex eph4)
          (resetIndex ⟨["i:ssnamenr", "i:jd", "i:magpsf"],
            [[Val.str "8467", Val.num 2459000, Val.num 18]]⟩))) "i:magpsf" = .ok ms
        ∧ getCol (dedupCols (concatCols (resetIndex eph4)
          (resetIndex ⟨["i:ssnamenr", "i:jd", "i:magpsf"],
            [[Val.str "8467", Val.num 2459000, Val.num 18]]⟩))) "Dobs" = .ok ds
        ∧ getCol (dedupCols (concatCols (resetIndex eph4)
          (resetIndex ⟨["i:ssnamenr", "i:jd", "i:magpsf"],
            [[Val.str "8467", Val.num 2459000, Val.num 18]]⟩))) "Dhelio" = .ok hs
        ∧ assignCol (dedupCols (concatCols (resetIndex eph4)
          (resetIndex ⟨["i:ssnamenr", "i:jd", "i:magpsf"],
            [[Val.str "8467", Val.num 2459000, Val.num 18]]⟩)))
          "i:magpsf_red" (redMagVals (fun q => q) ms ds hs) = .ok info := by
  cases hpc : processGroup (fun q => q)
      (.withData ⟨["RA", "DEC", "Dobs", "Dhelio"],
        [[Val.num 10, Val.num 20, Val.num (6/5), Val.num (23/10)]]⟩)
      MOutcome.timeout false
      ⟨["i:ssnamenr", "i:jd", "i:magpsf"],
        [[Val.str "8467", Val.num 2459000, Val.num 18]]⟩ with
  | error e =>
    have hko : (processGroup (fun q => q)
        (.withData ⟨["RA", "DEC", "Dobs", "Dhelio"],
          [[Val.num 10, Val.num 20, Val.num (6/5), Val.num (23/10)]]⟩)
        MOutcome.timeout false
        ⟨["i:ssnamenr", "i:jd", "i:magpsf"],
          [[Val.str "8467", Val.num 2459000, Val.num 18]]⟩).isOk = true := by decide
    rw [hpc] at hko
    simp [Except.isOk, Except.toBool] at hko
  | ok info =>
    exact ⟨info, rfl, (c9_reduced_magnitude (fun q => q)).1
      _ MOutcome.timeout false _ info _ hpc rfl (by decide)⟩

theorem getD_mem_of_lt {α : Type} (d : α) :
    ∀ (l : List α) (i : Nat), i < l.length → l.getD i d ∈ l := by
  intro l
  induction l with
  | nil => intro i h; exact absurd h (Nat.not_lt_zero i)
  | cons x xs ih =>
    intro i h
    cases i with
    | zero => simp [List.getD_cons_zero]
    | succ n =>
      rw [List.getD_cons_succ]
      exact List.mem_cons_of_mem x (ih n (by simpa using h))

theorem getD_idxOfName_self (cols : List String) (x d : String) (h : x ∈ cols) :
    cols.getD (idxOfName cols x) d = x := by
  induction cols with
  | nil => cases h
  | cons c cs ih =>
    by_cases hc : c = x
    · simp [idxOfName, hc]
    · rw [List.mem_cons] at h
      rcases h with h | h
      · exact absurd h.symm hc
      · rw [show idxOfName (c :: cs) x = idxOfName cs x + 1 from by simp [idxOfName, hc],
          List.getD_cons_succ]
        exact ih h

theorem not_mem_take_idxOfName (cols : List String) (x : String) :
    x ∉ cols.take (idxOfName cols x) := by
  induction cols with
  | nil => simp [idxOfName]
  | cons c cs ih =>
    by_cases hc : c = x
    · simp [idxOfName, hc]
    · rw [show idxOfName (c :: cs) x = idxOfName cs x + 1 from by simp [idxOfName, hc]]
      rw [List.take_succ_cons]
      intro hmem
      rcases List.mem_cons.mp hmem with h | h
      · exact hc h.symm
      · exact ih h

theorem mem_firstOcc_map (cols : List String) (x : String) :
    x ∈ (firstOccIdxs cols).map (fun i => cols.getD i "") ↔ x ∈ cols := by
  constructor
  · intro hx
    obtain ⟨i, hi, hgd⟩ := List.mem_map.mp hx
    have hir := (List.mem_filter.mp hi).1
    have hlt := List.mem_range.mp (by simpa [firstOccIdxs] using hir)
    rw [← hgd]
    exact getD_mem_of_lt "" cols i hlt
  · intro hx
    refine List.mem_map.mpr ⟨idxOfName cols x, ?_, getD_idxOfName_self cols x "" hx⟩
    refine List.mem_filter.mpr ⟨List.mem_range.mpr (idxOfName_lt_length cols x hx), ?_⟩
    rw [getD_idxOfName_self cols x "" hx]
    simp [not_mem_take_idxOfName cols x]

theorem dedupCols_mem (dd : PDF) (c : String) :
    c ∈ (dedupCols dd).pcols ↔ c ∈ dd.pcols :=
  mem_firstOcc_map dd.pcols c

theorem dedupCols_len (dd : PDF) :
    (dedupCols dd).prows.length = dd.prows.length := by
  simp [dedupCols]

theorem getCol_ok_facts (dd : PDF) (c : String) (vs : List Val)
    (h : getCol dd c = .ok vs) :
    c ∈ dd.pcols
      ∧ vs = dd.prows.map (fun r => r.getD (idxOfName dd.pcols c) default) := by
  by_cases hm : c ∈ dd.pcols
  · rw [getCol, if_pos hm] at h
    exact ⟨hm, (Except.ok.inj h).symm⟩
  · rw [getCol, if_neg hm] at h
    exact Except.noConfusion h

theorem dropColumns_ok_facts (dd : PDF) (cs : List String) (e : PDF)
    (h : dropColumns dd cs = .ok e) :
    e.pcols = dd.pcols.filter (fun x => !(decide (x ∈ cs)))
      ∧ e.prows.length = dd.prows.length := by
  by_cases hc : cs.all (fun c => decide (c ∈ dd.pcols)) = true
  · simp [dropColumns, hc] at h
    subst h
    exact ⟨rfl, by simp⟩
  · simp [dropColumns, hc] at h

theorem assignCol_ok_facts (dd : PDF) (c : String) (vs : List Val) (e : PDF)
    (h : assignCol dd c vs = .ok e) :
    (∀ x, x ∈ e.pcols ↔ (x ∈ dd.pcols ∨ x = c))
      ∧ vs.length = dd.prows.length
      ∧ e.prows.length = dd.prows.length := by
  by_cases hl : vs.length = dd.prows.length
  · by_cases hm : c ∈ dd.pcols
    · simp [assignCol, hl, hm] at h
      subst h
      refine ⟨fun x => ?_, hl, by simp [List.length_zip, hl]⟩
      constructor
      · exact Or.inl
      · rintro (hx | rfl)
        · exact hx
        · exact hm
    · simp [assignCol, hl, hm] at h
      subst h
      refine ⟨fun x => ?_, hl, by simp [List.length_zip, hl]⟩
      simp [List.mem_append]
  · simp [assignCol, hl] at h

theorem resetIndex_len (dd : PDF) :
    (resetIndex dd).prows.length = dd.prows.length := by
  simp [resetIndex]

theorem concatCols_len (a b : PDF) :
    (concatCols a b).prows.length = max a.prows.length b.prows.length := by
  simp [concatCols]

theorem insertValLe_mem (x y : Val) :
    ∀ l : List Val, y ∈ insertValLe x l ↔ (y = x ∨ y ∈ l) := by
  intro l
  induction l with
  | nil => simp [insertValLe]
  | cons z zs ih =>
    by_cases h : valLeB x z = true
    · simp [insertValLe, h]
    · simp [insertValLe, h, ih]
      tauto

theorem sortVals_mem (y : Val) :
    ∀ l : List Val, y ∈ sortVals l ↔ y ∈ l := by
  intro l
  induction l with
  | nil => simp [sortVals]
  | cons z zs ih => simp [sortVals, insertValLe_mem, ih]

theorem dedupKeepFirst_mem {α : Type} [DecidableEq α] :
    ∀ (l seen : List α) (x : α),
      x ∈ dedupKeepFirst seen l ↔ (x ∈ l ∧ x ∉ seen) := by
  intro l
  induction l with
  | nil => intro seen x; simp [dedupKeepFirst]
  | cons z zs ih =>
    intro seen x
    by_cases hz : z ∈ seen
    · simp only [dedupKeepFirst]
      rw [if_pos hz, ih]
      constructor
      · exact fun h => ⟨List.mem_cons_of_mem z h.1, h.2⟩
      · rintro ⟨h1, h2⟩
        rcases List.mem_cons.mp h1 with rfl | h1
        · exact absurd hz h2
        · exact ⟨h1, h2⟩
    · simp only [dedupKeepFirst]
      rw [if_neg hz]
      constructor
      · intro h
        rcases List.mem_cons.mp h with rfl | h
        · exact ⟨List.mem_cons_self x zs, hz⟩
        · have h2 := (ih (z :: seen) x).mp h
          exact ⟨List.mem_cons_of_mem z h2.1,
            fun hs => h2.2 (List.mem_cons_of_mem z hs)⟩
      · rintro ⟨h1, h2⟩
        rcases List.mem_cons.mp h1 with rfl | h1
        · exact List.mem_cons_self x _
        · by_cases hxz : x = z
          · subst hxz
            exact List.mem_cons_self x _
          · refine List.mem_cons_of_mem z ((ih (z :: seen) x).mpr ⟨h1, ?_⟩)
            intro hs
            rcases List.mem_cons.mp hs with h | h
            · exact hxz h
            · exact h2 h

theorem dedupKeepFirst_nodup {α : Type} [DecidableEq α] :
    ∀ (l seen : List α), (dedupKeepFirst seen l).Nodup := by
  intro l
  induction l with
  | nil => intro seen; simp [dedupKeepFirst]
  | cons z zs ih =>
    intro seen
    by_cases hz : z ∈ seen
    · simp only [dedupKeepFirst]
      rw [if_pos hz]
      exact ih seen
    · simp only [dedupKeepFirst]
      rw [if_neg hz]
      refine List.nodup_cons.mpr ⟨?_, ih (z :: seen)⟩
      intro hmem
      exact ((dedupKeepFirst_mem zs (z :: seen) z).mp hmem).2 (List.mem_cons_self z seen)

theorem sum_map_add_nat {α : Type} (f g : α → Nat) :
    ∀ l : List α, (l.map (fun a => f a + g a)).sum = (l.map f).sum + (l.map g).sum := by
  intro l
  induction l with
  | nil => rfl
  | cons x xs ih =>
    simp only [List.map_cons, List.sum_cons, ih]
    omega

theorem sum_ite_zero {α : Type} [DecidableEq α] (v : α) :
    ∀ gs : List α, v ∉ gs →
      (gs.map (fun g => if v == g then (1 : Nat) else 0)).sum = 0 := by
  intro gs
  induction gs with
  | nil => intro _; rfl
  | cons g gs ih =>
    intro h
    have h1 : v ≠ g := fun he => h (he ▸ List.mem_cons_self g gs)
    have h2 : v ∉ gs := fun hm => h (List.mem_cons_of_mem g hm)
    simp only [List.map_cons, List.sum_cons, ih h2]
    simp [h1]

theorem sum_ite_one {α : Type} [DecidableEq α] (v : α) :
    ∀ gs : List α, gs.Nodup → v ∈ gs →
      (gs.map (fun g => if v == g then (1 : Nat) else 0)).sum = 1 := by
  intro gs
  induction gs with
  | nil => intro _ h; cases h
  | cons g gs ih =>
    intro hnd hv
    rcases List.mem_cons.mp hv with rfl | hv2
    · have hng : v ∉ gs := (List.nodup_cons.mp hnd).1
      simp only [List.map_cons, List.sum_cons]
      rw [sum_ite_zero v gs hng]
      simp
    · by_cases he : v = g
      · subst he
        exact absurd hv2 (List.nodup_cons.mp hnd).1
      · simp only [List.map_cons, List.sum_cons, ih (List.nodup_cons.mp hnd).2 hv2]
        simp [he]

theorem sum_filter_partition {α β : Type} [DecidableEq β] (key : α → β) :
    ∀ (rows : List α) (gs : List β), gs.Nodup → (∀ r ∈ rows, key r ∈ gs) →
      (gs.map (fun g => (rows.filter (fun x => key x == g)).length)).sum
        = rows.length := by
  intro rows
  induction rows with
  | nil => intro gs _ _; simp
  | cons r rows ih =>
    intro gs hnd hall
    have h1 : key r ∈ gs := hall r (List.mem_cons_self r rows)
    have h2 : ∀ x ∈ rows, key x ∈ gs := fun x hx => hall x (List.mem_cons_of_mem r hx)
    have hsplit : ∀ g : β, ((r :: rows).filter (fun x => key x == g)).length
        = (if key r == g then 1 else 0) + (rows.filter (fun x => key x == g)).length := by
      intro g
      rw [List.filter_cons]
      by_cases hg : (key r == g) = true
      · rw [if_pos hg, if_pos hg, List.length_cons]
        omega
      · rw [if_neg hg, if_neg hg]
        omega
    calc (gs.map (fun g => ((r :: rows).filter (fun x => key x == g)).length)).sum
        = (gs.map (fun g => (if key r == g then 1 else 0)
            + (rows.filter (fun x => key x == g)).length)).sum := by
          rw [List.map_congr_left (fun g _ => hsplit g)]
      _ = (gs.map (fun g => if key r == g then (1 : Nat) else 0)).sum
            + (gs.map (fun g => (rows.filter (fun x => key x == g)).length)).sum :=
          sum_map_add_nat _ _ gs
      _ = 1 + rows.length := by rw [sum_ite_one (key r) gs hnd h1, ih gs hnd h2]
      _ = (r :: rows).length := by rw [List.length_cons]; omega

theorem processGroup_empty_passthrough (lg : ℚ → ℚ) (oEc : MOutcome) (wec : Bool)
    (sub d : PDF) (h : d.isEmptyDf = true) :
    processGroup lg (.withData d) oEc wec sub = .ok sub := by
  simp only [processGroup, query_miriade, Bind.bind, Except.bind, h]
  exact if_pos trivial

set_option maxHeartbeats 1600000 in
theorem processGroup_ok_spec (lg : ℚ → ℚ) (oEc : MOutcome) (wec : Bool)
    (sub info d : PDF)
    (hok : processGroup lg (.withData d) oEc wec sub = .ok info)
    (hne : d.isEmptyDf = false) :
    (∀ c, c ∈ info.pcols ↔ (c ∈ sub.pcols ∨ c ∈ ephContribCols d wec))
    ∧ (d.prows.length = sub.prows.length →
        info.prows.length = sub.prows.length) := by
  simp only [processGroup, query_miriade, Bind.bind, Except.bind, hne,
    Bool.false_eq_true, if_false] at hok
  obtain ⟨ras, hras, hok⟩ := except_bind_ok_inv hok
  obtain ⟨decs, hdecs, hok⟩ := except_bind_ok_inv hok
  obtain ⟨eph1, he1, hok⟩ := except_bind_ok_inv hok
  obtain ⟨eph2, he2, hok⟩ := except_bind_ok_inv hok
  obtain ⟨eph3, he3, hok⟩ := except_bind_ok_inv hok
  have h1f := dropColumns_ok_facts d ["RA", "DEC"] eph1 he1
  have h2f := assignCol_ok_facts eph1 "RA" (ras.map (vScale 15)) eph2 he2
  have h3f := assignCol_ok_facts eph2 "Dec" decs eph3 he3
  have hlen3 : eph3.prows.length = d.prows.length :=
    h3f.2.2.trans (h2f.2.2.trans h1f.2)
  have hm3 : ∀ c, c ∈ eph3.pcols
      ↔ (c ∈ d.pcols.filter (fun x => !(decide (x ∈ (["RA", "DEC"] : List String))))
          ∨ c = "RA" ∨ c = "Dec") := by
    intro c
    rw [h3f.1 c, h2f.1 c, h1f.1]
    tauto
  cases wec with
  | false =>
    rw [if_neg Bool.false_ne_true] at hok
    obtain ⟨ms, hms, hok⟩ := except_bind_ok_inv hok
    obtain ⟨ds, hds, hok⟩ := except_bind_ok_inv hok
    obtain ⟨hs, hhs, hok⟩ := except_bind_ok_inv hok
    have hff := assignCol_ok_facts _ "i:magpsf_red" _ info hok
    constructor
    · intro c
      rw [hff.1 c, dedupCols_mem]
      rw [show (concatCols (resetIndex eph3) (resetIndex sub)).pcols
        = ("index" :: eph3.pcols) ++ ("index" :: sub.pcols) from rfl]
      simp only [List.mem_append, List.mem_cons, hm3 c]
      simp only [ephContribCols, List.mem_cons, List.mem_append,
        List.mem_singleton, Bool.false_eq_true, if_false, List.not_mem_nil]
      tauto
    · intro hdl
      have hI : (dedupCols (concatCols (resetIndex eph3)
          (resetIndex sub))).prows.length = sub.prows.length := by
        rw [dedupCols_len, concatCols_len, resetIndex_len, resetIndex_len,
          hlen3, hdl, Nat.max_self]
      rw [hff.2.2, hI]
  | true =>
    rw [if_pos rfl] at hok
    obtain ⟨ephEc, hEc, hok⟩ := except_bind_ok_inv hok
    obtain ⟨lons, hlons, hok⟩ := except_bind_ok_inv hok
    obtain ⟨lats, hlats, hok⟩ := except_bind_ok_inv hok
    obtain ⟨e1, hE1, hok⟩ := except_bind_ok_inv hok
    obtain ⟨eph4, hE4, hok⟩ := except_bind_ok_inv hok
    obtain ⟨ms, hms, hok⟩ := except_bind_ok_inv hok
    obtain ⟨ds, hds, hok⟩ := except_bind_ok_inv hok
    obtain ⟨hs, hhs, hok⟩ := except_bind_ok_inv hok
    have hf1 := assignCol_ok_facts eph3 "Longitude" lons e1 hE1
    have hf4 := assignCol_ok_facts e1 "Latitude" lats eph4 hE4
    have hff := assignCol_ok_facts _ "i:magpsf_red" _ info hok
    have hlen4 : eph4.prows.length = d.prows.length :=
      hf4.2.2.trans (hf1.2.2.trans hlen3)
    constructor
    · intro c
      rw [hff.1 c, dedupCols_mem]
      rw [show (concatCols (resetIndex eph4) (resetIndex sub)).pcols
        = ("index" :: eph4.pcols) ++ ("index" :: sub.pcols) from rfl]
      simp only [List.mem_append, List.mem_cons, hf4.1 c, hf1.1 c, hm3 c]
      simp only [ephContribCols, List.mem_cons, List.mem_append,
        List.mem_singleton, eq_self_iff_true, if_true, List.not_mem_nil]
      tauto
    · intro hdl
      have hI : (dedupCols (concatCols (resetIndex eph4)
          (resetIndex sub))).prows.length = sub.prows.length := by
        rw [dedupCols_len, concatCols_len, resetIndex_len, resetIndex_len,
          hlen4, hdl, Nat.max_self]
      rw [hff.2.2, hI]

theorem processGroups_forall2 (lg : ℚ → ℚ) (oracle : Val → Bool → MOutcome)
    (pdf : PDF) (wec : Bool) :
    ∀ (gs : List Val) (infos : List PDF),
      processGroups lg oracle pdf wec gs = .ok infos →
      List.Forall₂ (fun g info =>
        processGroupO lg oracle pdf wec g = .ok info) gs infos := by
  intro gs
  induction gs with
  | nil =>
    intro infos h
    simp only [processGroups] at h
    cases Except.ok.inj h
    exact List.Forall₂.nil
  | cons g gs ih =>
    intro infos h
    simp only [processGroups, Bind.bind, Except.bind] at h
    obtain ⟨info, hi, h⟩ := except_bind_ok_inv h
    obtain ⟨rest, hr, h⟩ := except_bind_ok_inv h
    cases Except.ok.inj h
    exact List.Forall₂.cons hi (ih rest hr)

theorem forall2_strengthen {α β : Type} {R : α → β → Prop} :
    ∀ {xs : List α} {ys : List β}, List.Forall₂ R xs ys →
      ∀ (S : α → Prop), (∀ x ∈ xs, S x) →
      List.Forall₂ (fun x y => R x y ∧ S x) xs ys := by
  intro xs ys h
  induction h with
  | nil => intro S _; exact List.Forall₂.nil
  | cons hR htail ih =>
    intro S hS
    exact List.Forall₂.cons ⟨hR, hS _ (List.mem_cons_self _ _)⟩
      (ih S (fun x hx => hS x (List.mem_cons_of_mem _ hx)))

theorem forall2_sum_len {α β : Type} (f : β → Nat) (k : α → Nat)
    {R : α → β → Prop} :
    ∀ {xs : List α} {ys : List β}, List.Forall₂ R xs ys →
      (∀ x y, R x y → f y = k x) →
      (ys.map f).sum = (xs.map k).sum := by
  intro xs ys h he
  induction h with
  | nil => rfl
  | cons hR htail ih => simp only [List.map_cons, List.sum_cons, he _ _ hR, ih]

theorem forall2_exists_iff {α β : Type} {R : α → β → Prop} {P : β → Prop}
    {Q : α → Prop} :
    ∀ {xs : List α} {ys : List β}, List.Forall₂ R xs ys →
      (∀ x y, R x y → (P y ↔ Q x)) →
      ((∃ y, y ∈ ys ∧ P y) ↔ (∃ x, x ∈ xs ∧ Q x)) := by
  intro xs ys h hiff
  induction h with
  | nil => constructor <;> rintro ⟨z, hz, _⟩ <;> cases hz
  | cons hR htail ih =>
    constructor
    · rintro ⟨y, hy, hP⟩
      rcases List.mem_cons.mp hy with rfl | hy2
      · exact ⟨_, List.mem_cons_self _ _, (hiff _ _ hR).mp hP⟩
      · obtain ⟨x, hx, hQ⟩ := ih.mp ⟨y, hy2, hP⟩
        exact ⟨x, List.mem_cons_of_mem _ hx, hQ⟩
    · rintro ⟨x, hx, hQ⟩
      rcases List.mem_cons.mp hx with rfl | hx2
      · exact ⟨_, List.mem_cons_self _ _, (hiff _ _ hR).mpr hQ⟩
      · obtain ⟨y, hy, hP⟩ := ih.mpr ⟨x, hx2, hQ⟩
        exact ⟨y, List.mem_cons_of_mem _ hy, hP⟩

theorem exists_mem_or_iff {α : Type} {l : List α} (hne : l ≠ []) (A : Prop)
    (B : α → Prop) :
    (∃ x, x ∈ l ∧ (A ∨ B x)) ↔ (A ∨ ∃ x, x ∈ l ∧ B x) := by
  constructor
  · rintro ⟨x, hx, h | h⟩
    · exact Or.inl h
    · exact Or.inr ⟨x, hx, h⟩
  · rintro (h | ⟨x, hx, h⟩)
    · cases l with
      | nil => exact absurd rfl hne
      | cons a l2 => exact ⟨a, List.mem_cons_self a l2, Or.inl h⟩
    · exact ⟨x, hx, Or.inr h⟩

theorem concatRows_len (dfs : List PDF) :
    (concatRows dfs).prows.length = (dfs.map (fun d => d.prows.length)).sum := by
  simp only [concatRows]
  rw [length_flatMap_sum]
  congr 1
  exact List.map_congr_left (fun d _ => by rw [List.length_map])

theorem concatRows_mem (dfs : List PDF) (c : String) :
    c ∈ (concatRows dfs).pcols ↔ ∃ d, d ∈ dfs ∧ c ∈ d.pcols := by
  simp only [concatRows]
  rw [dedupKeepFirst_mem]
  constructor
  · intro h
    obtain ⟨d, hd, hc⟩ := List.mem_flatMap.mp h.1
    exact ⟨d, hd, hc⟩
  · rintro ⟨d, hd, hc⟩
    exact ⟨List.mem_flatMap.mpr ⟨d, hd, hc⟩, List.not_mem_nil c⟩

/-- C4: when the enricher returns a frame (and every successful
ephemerides response has exactly as many rows as its input group), the
output row count equals the input row count, the output column set is
the union of the input columns and the columns contributed by the
successful groups, and every group whose primary query fails
recoverably passes through unchanged. -/
theorem c4_row_and_column_preservation (lg : ℚ → ℚ)
    (oracle : Val → Bool → MOutcome) (pdf out : PDF) (wec : Bool)
    (sv : List Val)
    (hsv : getCol pdf "i:ssnamenr" = .ok sv)
    (hok : get_miriade_data lg oracle pdf wec = .ok out)
    (hpre : ∀ g, g ∈ uniqueSorted sv → ∀ d, oracle g true = .withData d →
        d.isEmptyDf = false → d.prows.length = (subDf pdf g).prows.length) :
    out.prows.length = pdf.prows.length
    ∧ (∀ c, c ∈ out.pcols ↔ (c ∈ pdf.pcols
        ∨ ∃ g, g ∈ uniqueSorted sv ∧ ∃ d, oracle g true = .withData d
            ∧ d.isEmptyDf = false ∧ c ∈ ephContribCols d wec))
    ∧ (∀ g, primaryEmptyFail (oracle g true) →
        processGroupO lg oracle pdf wec g = .ok (subDf pdf g)) := by
  have hpass : ∀ g, primaryEmptyFail (oracle g true) →
      processGroupO lg oracle pdf wec g = .ok (subDf pdf g) := by
    intro g hpf
    rcases hpf with h | h
    · rw [processGroupO, h]
      exact processGroup_passthrough_timeout lg (oracle g false) wec (subDf pdf g)
    · rw [processGroupO, h]
      exact processGroup_passthrough_noData lg (oracle g false) wec (subDf pdf g)
  simp only [get_miriade_data, Bind.bind, Except.bind, hsv] at hok
  obtain ⟨infos, hinf, hok⟩ := except_bind_ok_inv hok
  have hf2 := processGroups_forall2 lg oracle pdf wec (uniqueSorted sv) infos hinf
  have hf2s := forall2_strengthen hf2 (fun g => g ∈ uniqueSorted sv) (fun x hx => hx)
  have hsvf := getCol_ok_facts pdf "i:ssnamenr" sv hsv
  have hnd : (uniqueSorted sv).Nodup := dedupKeepFirst_nodup _ []
  have hallmem : ∀ r ∈ pdf.prows,
      (r.getD (idxOfName pdf.pcols "i:ssnamenr") default) ∈ uniqueSorted sv := by
    intro r hr
    have hmem : r.getD (idxOfName pdf.pcols "i:ssnamenr") default ∈ sv := by
      rw [hsvf.2]
      exact List.mem_map.mpr ⟨r, hr, rfl⟩
    exact (dedupKeepFirst_mem _ [] _).mpr
      ⟨(sortVals_mem _ sv).mpr hmem, List.not_mem_nil _⟩
  have hgrp : ∀ g info, processGroupO lg oracle pdf wec g = .ok info →
      g ∈ uniqueSorted sv →
      (info.prows.length = (subDf pdf g).prows.length
        ∧ (∀ c, c ∈ info.pcols ↔ (c ∈ pdf.pcols
            ∨ ∃ d, oracle g true = .withData d ∧ d.isEmptyDf = false
              ∧ c ∈ ephContribCols d wec))) := by
    intro g info hpo hgm
    cases hor : oracle g true with
    | timeout =>
      rw [processGroupO, hor, processGroup_passthrough_timeout] at hpo
      cases Except.ok.inj hpo
      refine ⟨rfl, fun c => ?_⟩
      constructor
      · exact fun hc => Or.inl hc
      · rintro (hc | ⟨d, hd, _, _⟩)
        · exact hc
        · exact MOutcome.noConfusion hd
    | noData =>
      rw [processGroupO, hor, processGroup_passthrough_noData] at hpo
      cases Except.ok.inj hpo
      refine ⟨rfl, fun c => ?_⟩
      constructor
      · exact fun hc => Or.inl hc
      · rintro (hc | ⟨d, hd, _, _⟩)
        · exact hc
        · exact MOutcome.noConfusion hd
    | connError =>
      rw [processGroupO, hor] at hpo
      obtain ⟨e, he⟩ :=
        processGroup_fatal lg .connError (oracle g false) wec (subDf pdf g) (Or.inl rfl)
      rw [he] at hpo
      exact Except.noConfusion hpo
    | badJson =>
      rw [processGroupO, hor] at hpo
      obtain ⟨e, he⟩ :=
        processGroup_fatal lg .badJson (oracle g false) wec (subDf pdf g) (Or.inr rfl)
      rw [he] at hpo
      exact Except.noConfusion hpo
    | withData d0 =>
      by_cases hemp : d0.isEmptyDf = true
      · rw [processGroupO, hor,
          processGroup_empty_passthrough lg (oracle g false) wec (subDf pdf g) d0 hemp] at hpo
        cases Except.ok.inj hpo
        refine ⟨rfl, fun c => ?_⟩
        constructor
        · exact fun hc => Or.inl hc
        · rintro (hc | ⟨d, hd, hdne, _⟩)
          · exact hc
          · cases MOutcome.withData.inj hd
            rw [hemp] at hdne
            exact Bool.noConfusion hdne
      · have hne0 : d0.isEmptyDf = false := by
          cases hdb : d0.isEmptyDf
          · rfl
          · exact absurd hdb hemp
        rw [processGroupO, hor] at hpo
        have spec := processGroup_ok_spec lg (oracle g false) wec (subDf pdf g) info d0 hpo hne0
        refine ⟨spec.2 (hpre g hgm d0 hor hne0), fun c => ?_⟩
        constructor
        · intro hc
          rcases (spec.1 c).mp hc with h | h
          · exact Or.inl h
          · exact Or.inr ⟨d0, rfl, hne0, h⟩
        · rintro (hc | ⟨d, hd, hdne, hcc⟩)
          · exact (spec.1 c).mpr (Or.inl hc)
          · cases MOutcome.withData.inj hd
            exact (spec.1 c).mpr (Or.inr hcc)
  have hsum1 : (infos.map (fun i => i.prows.length)).sum
      = ((uniqueSorted sv).map (fun g => (subDf pdf g).prows.length)).sum :=
    forall2_sum_len _ _ hf2s (fun g i hRi => (hgrp g i hRi.1 hRi.2).1)
  have hsum2 : ((uniqueSorted sv).map (fun g => (subDf pdf g).prows.length)).sum
      = pdf.prows.length := by
    rw [List.map_congr_left (fun g _ =>
      (rfl : (subDf pdf g).prows.length
        = (pdf.prows.filter (fun r =>
            r.getD (idxOfName pdf.pcols "i:ssnamenr") default == g)).length))]
    exact sum_filter_partition
      (fun r => r.getD (idxOfName pdf.pcols "i:ssnamenr") default)
      pdf.prows (uniqueSorted sv) hnd hallmem
  have hexists : ∀ c, (∃ i, i ∈ infos ∧ c ∈ i.pcols)
      ↔ (∃ g, g ∈ uniqueSorted sv ∧ (c ∈ pdf.pcols
          ∨ ∃ d, oracle g true = .withData d ∧ d.isEmptyDf = false
            ∧ c ∈ ephContribCols d wec)) :=
    fun c => forall2_exists_iff hf2s (fun g i hR => (hgrp g i hR.1 hR.2).2 c)
  cases infos with
  | nil => exact Except.noConfusion hok
  | cons i1 rest =>
    have hne_gs : uniqueSorted sv ≠ [] := by
      intro h0
      rw [h0] at hf2
      cases hf2
    cases rest with
    | nil =>
      have hinj := Except.ok.inj hok
      subst hinj
      refine ⟨?_, ?_, hpass⟩
      · have := hsum1.trans hsum2
        simpa using this
      · intro c
        have h1 : (∃ i, i ∈ [i1] ∧ c ∈ i.pcols) ↔ c ∈ i1.pcols := by
          constructor
          · rintro ⟨i, hi, hc⟩
            rcases List.mem_cons.mp hi with rfl | h0
            · exact hc
            · cases h0
          · intro hc
            exact ⟨i1, List.mem_cons_self _ _, hc⟩
        rw [← h1, hexists c]
        exact exists_mem_or_iff hne_gs _ _
    | cons i2 rest2 =>
      cases Except.ok.inj hok
      refine ⟨?_, ?_, hpass⟩
      · rw [concatRows_len]
        exact hsum1.trans hsum2
      · intro c
        rw [concatRows_mem, hexists c]
        exact exists_mem_or_iff hne_gs _ _

/-- C4 witness: a two-group frame where the first group succeeds and the
second times out; the enricher keeps both rows and passes the failing
group through unchanged. -/
theorem c4_witness :
    ∃ out, get_miriade_data (fun q => q)
        (fun g _ => if g == Val.num 1 then
          MOutcome.withData ⟨["RA", "DEC", "Dobs", "Dhelio"],
            [[Val.num 10, Val.num 20, Val.num 1, Val.num 1]]⟩
          else MOutcome.timeout)
        ⟨["i:ssnamenr", "i:magpsf"],
          [[Val.num 1, Val.num 18], [Val.num 2, Val.num 17]]⟩ false = .ok out
      ∧ out.prows.length = 2
      ∧ processGroupO (fun q => q)
        (fun g _ => if g == Val.num 1 then
          MOutcome.withData ⟨["RA", "DEC", "Dobs", "Dhelio"],
            [[Val.num 10, Val.num 20, Val.num 1, Val.num 1]]⟩
          else MOutcome.timeout)
        ⟨["i:ssnamenr", "i:magpsf"],
          [[Val.num 1, Val.num 18], [Val.num 2, Val.num 17]]⟩ false (Val.num 2)
        = .ok (subDf ⟨["i:ssnamenr", "i:magpsf"],
          [[Val.num 1, Val.num 18], [Val.num 2, Val.num 17]]⟩ (Val.num 2)) := by
  cases hout : get_miriade_data (fun q => q)
      (fun g _ => if g == Val.num 1 then
        MOutcome.withData ⟨["RA", "DEC", "Dobs", "Dhelio"],
          [[Val.num 10, Val.num 20, Val.num 1, Val.num 1]]⟩
        else MOutcome.timeout)
      ⟨["i:ssnamenr", "i:magpsf"],
        [[Val.num 1, Val.num 18], [Val.num 2, Val.num 17]]⟩ false with
  | error e =>
    have hko : (get_miriade_data (fun q => q)
        (fun g _ => if g == Val.num 1 then
          MOutcome.withData ⟨["RA", "DEC", "Dobs", "Dhelio"],
            [[Val.num 10, Val.num 20, Val.num 1, Val.num 1]]⟩
          else MOutcome.timeout)
        ⟨["i:ssnamenr", "i:magpsf"],
          [[Val.num 1, Val.num 18], [Val.num 2, Val.num 17]]⟩ false).isOk
        = true := by decide
    rw [hout] at hko
    simp [Except.isOk, Except.toBool] at hko
  | ok out =>
    have hmain := c4_row_and_column_preservation (fun q => q)
      (fun g _ => if g == Val.num 1 then
        MOutcome.withData ⟨["RA", "DEC", "Dobs", "Dhelio"],
          [[Val.num 10, Val.num 20, Val.num 1, Val.num 1]]⟩
        else MOutcome.timeout)
      ⟨["i:ssnamenr", "i:magpsf"],
        [[Val.num 1, Val.num 18], [Val.num 2, Val.num 17]]⟩ out false
      [Val.num 1, Val.num 2] (by decide) hout
      (by
        intro g hg d hd hne
        have h12 : uniqueSorted [Val.num 1, Val.num 2]
            = [Val.num 1, Val.num 2] := by decide
        rw [h12] at hg
        have hg2 : g = Val.num 1 ∨ g = Val.num 2 := by simpa using hg
        rcases hg2 with rfl | rfl
        · have hdd := MOutcome.withData.inj hd
          rw [← hdd]
          decide
        · exact MOutcome.noConfusion hd)
    exact ⟨out, rfl, hmain.1, hmain.2.2 (Val.num 2) (Or.inl rfl)⟩
